import Mathlib

/-!
Reduction benchmark driver: a verification development for `src/main_sum.cpp`.

A shallow embedding of the benchmark driver: the workload generation loop, the
two host summation strategies, the measurement protocol `exec_kernel`, the
consistency check `raiseFail` and the sequencing of the strategies in `main`.

Conventions.
* `unsigned int` values are natural numbers below `2 ^ 32`; every arithmetic
  operation of the source on them is followed by an explicit `% 2 ^ 32`.
* Everything the program does to the outside world (device buffer transfers,
  kernel dispatches, timer laps, text on `std::cerr`, report lines on
  `std::cout`) is logged, in program order, as a list of `Event`s. The numbers
  in a report line come from the wall clock and are not modelled; a report
  event records the strategy and the number of laps its timer holds.
* A thrown `std::runtime_error` is `Except.error` carrying the message; a
  statement that follows a throwing one is not run.
* The libraries the driver links against (device buffers, kernel launch, timer,
  random generator, OpenMP runtime) are parameters of the model and are assumed
  not to fail; the choice of the device and the set-up of its context
  (`main`, lines 100-103) leave no trace in the model.
* The loops `for (int i = 0; i < n; ++i)` are folds over the indices
  `0 .. n - 1`, which is what they are as long as `n` fits a signed `int`.
-/

namespace MainSum

/-! ## Machine arithmetic -/

/-- The value of `std::numeric_limits<unsigned int>::max()`. -/
def UINT_MAX : Nat := 4294967295

/-- Addition of two `unsigned int`s (`sum += x`): the result wraps modulo `2 ^ 32`. -/
def wadd (a b : Nat) : Nat := (a + b) % 2 ^ 32

/-! ## Observable events and outcomes -/

/-- One of the seven benchmarked strategies, as it tags the driver's actions. -/
inductive Strategy where
  | cpu
  | cpuOmp
  | gpu (name : String)
  deriving DecidableEq, Repr

/-- What the driver does to the outside world, one constructor per kind of statement. -/
inductive Event where
  /-- The call `as_gpu.resizeN(n)`. -/
  | resizeInput (n : Nat)
  /-- The call `as_gpu.writeN(as.data(), n)`; `data` is what gets copied to the device. -/
  | writeInput (data : List Nat)
  /-- The call `sum_gpu.resizeN(1)`. -/
  | resizeAcc
  /-- The call `kernel.compile(true)` for the kernel called `name`. -/
  | compile (name : String)
  /-- The call `sum_gpu.writeN(&sum, 1)` with the current host value `v` of `sum`. -/
  | writeAcc (v : Nat)
  /-- The call `kernel.exec(gpu::WorkSize(workGroupSize, globalWorkSize), as_gpu, sum_gpu, n)`;
  `input` and `acc` are the contents of the two buffers when the kernel starts. -/
  | exec (name : String) (workGroupSize globalWorkSize : Nat) (input : List Nat) (acc n : Nat)
  /-- The call `sum_gpu.readN(&sum, 1)` delivering `v`. -/
  | readAcc (v : Nat)
  /-- One pass of a host summation loop, for trial `iter`, giving `sum`. -/
  | hostSum (s : Strategy) (iter sum : Nat)
  /-- The call `t.nextLap()` on the timer of strategy `s`. -/
  | lap (s : Strategy)
  /-- Text written to `std::cerr`. -/
  | cerr (text : String)
  /-- The two `std::cout` lines (mean and deviation, throughput) of strategy `s`,
  computed from a timer holding `laps` laps. -/
  | report (s : Strategy) (laps : Nat)
  deriving DecidableEq, Repr

/-- A run of a piece of the driver: the events in program order and how it ended. -/
abbrev Run (σ : Type) := List Event × Except String σ

/-- Sequencing of two statements `first; second`: `second` runs only when
`first` did not throw. -/
def andThen {σ τ : Type} (first : Run σ) (second : σ → Run τ) : Run τ :=
  match first.2 with
  | .ok s => (first.1 ++ (second s).1, (second s).2)
  | .error e => (first.1, .error e)

/-- The loop `for (int iter = start; iter < start + remaining; ++iter) body`,
threading the variables `body` updates. -/
def forLoop {σ : Type} (body : Nat → σ → Run σ) : Nat → Nat → σ → Run σ
  | 0, _, s => ([], .ok s)
  | remaining + 1, iter, s => andThen (body iter s) (forLoop body remaining (iter + 1))

/-! ## `raiseFail` and `EXPECT_THE_SAME` -/

/-- The template `raiseFail`; `ToString` stands for `operator<<` on the value type. -/
def raiseFail {T : Type} [DecidableEq T] [ToString T]
    (a b : T) (message filename : String) (line : Int) : Run Unit :=
  if a ≠ b then
    ([Event.cerr (message ++ " But " ++ toString a ++ " != " ++ toString b ++ ", "
        ++ filename ++ ":" ++ toString line ++ "\n")],
      .error message)
  else ([], .ok ())

/-! ## Work partition -/

/-- The constant `workGroupSize` of `exec_kernel`. -/
def workGroupSize : Nat := 32

/-- `(n + workGroupSize - 1) / workGroupSize * workGroupSize` in `unsigned int` arithmetic. -/
def globalWorkSize (n : Nat) : Nat :=
  ((((n + workGroupSize) % 2 ^ 32 + 2 ^ 32 - 1) % 2 ^ 32) / workGroupSize * workGroupSize) % 2 ^ 32

/-! ## Workload generation (`main`, lines 61-68) -/

/-- The cast `(unsigned int) x` of a signed value. -/
def toUInt (x : Int) : Nat := (x % 2 ^ 32).toNat

/-- The generation loop of `main`. `next i lo hi` is the value returned by the
`i`-th call `r.next(lo, hi)` on the generator `FastRandom r(42)`. The result is
the filled vector `as` and `reference_sum`. -/
def generate (next : Nat → Nat → Nat → Int) (n : Nat) : List Nat × Nat :=
  (List.range n).foldl
    (fun (st : List Nat × Nat) (i : Nat) =>
      let as := st.1.set i (toUInt (next i 0 (UINT_MAX / n)))
      (as, wadd st.2 (as.getD i 0)))
    (List.replicate n 0, 0)

/-! ## Host strategies (`main`, lines 70-97) -/

/-- The loop `for (int i = 0; i < n; ++i) sum += as[i];` started from `sum = 0`.
In `main` the vector has exactly `n` elements, so every read is in bounds. -/
def seqSum (as : List Nat) (n : Nat) : Nat :=
  (List.range n).foldl (fun sum i => wadd sum (as.getD i 0)) 0

/-- The private partial of one OpenMP thread: it starts at `0` and adds `as[i]`
for the indices `i` of its chunk. -/
def ompPartial (as : List Nat) (chunk : List Nat) : Nat :=
  chunk.foldl (fun sum i => wadd sum (as.getD i 0)) 0

/-- The combination of the private partials into the shared `sum`, which is `0`
before the parallel loop; the partials are added in the order of the list. -/
def ompCombine (partials : List Nat) : Nat :=
  partials.foldl wadd 0

/-- The loop under `#pragma omp parallel for reduction(+:sum)`, for a given
assignment of the loop indices to threads (`chunks`, one list of indices per
thread, listed in the order in which the partials are combined). -/
def ompSum (as : List Nat) (chunks : List (List Nat)) : Nat :=
  ompCombine (chunks.map (ompPartial as))

/-- One trial of the sequential block; the state is the number of laps of `t`. -/
def cpuBody (file : String) (as : List Nat) (n reference_sum : Nat)
    (iter : Nat) (laps : Nat) : Run Nat :=
  let sum := seqSum as n
  andThen ([Event.hostSum .cpu iter sum], .ok ()) fun _ =>
  andThen (raiseFail reference_sum sum "CPU result should be consistent!" file 77) fun _ =>
  ([Event.lap .cpu], .ok (laps + 1))

/-- The sequential block of `main` (lines 70-82). -/
def cpuBlock (file : String) (as : List Nat) (n reference_sum : Nat)
    (benchmarkingIters : Int) : Run Unit :=
  andThen (forLoop (cpuBody file as n reference_sum) benchmarkingIters.toNat 0 0) fun laps =>
  ([Event.report .cpu laps], .ok ())

/-- One trial of the OpenMP block; `omp iter` is the assignment of loop indices
to threads chosen by the OpenMP runtime in trial `iter`. -/
def ompBody (omp : Nat → List (List Nat)) (file : String) (as : List Nat)
    (reference_sum : Nat) (iter : Nat) (laps : Nat) : Run Nat :=
  let sum := ompSum as (omp iter)
  andThen ([Event.hostSum .cpuOmp iter sum], .ok ()) fun _ =>
  andThen (raiseFail reference_sum sum "CPU OpenMP result should be consistent!" file 92) fun _ =>
  ([Event.lap .cpuOmp], .ok (laps + 1))

/-- The OpenMP block of `main` (lines 84-97). -/
def ompBlock (omp : Nat → List (List Nat)) (file : String) (as : List Nat)
    (reference_sum : Nat) (benchmarkingIters : Int) : Run Unit :=
  andThen (forLoop (ompBody omp file as reference_sum) benchmarkingIters.toNat 0 0) fun laps =>
  ([Event.report .cpuOmp laps], .ok ())

/-! ## Measurement protocol of the device strategies (`exec_kernel`) -/

/-- A compute device: `device name iter workGroupSize globalWorkSize input acc n`
is the content of the accumulator buffer after the kernel `name`, dispatched in
trial `iter`, has completed on an input buffer holding `input` and an
accumulator buffer holding `acc`. The input buffer is not changed by a kernel. -/
abbrev Device := String → Nat → Nat → Nat → List Nat → Nat → Nat → Nat

/-- The variables of `exec_kernel` that live across trials: the host variable
`sum`, the content of `sum_gpu` and the number of laps of the timer `t`. -/
structure KState where
  sum : Nat
  sum_gpu : Nat
  laps : Nat
  deriving DecidableEq, Repr

/-- One trial of `exec_kernel` (lines 43-50). -/
def kernelBody (device : Device) (file : String) (as_gpu : List Nat)
    (n reference_sum : Nat) (name : String) (iter : Nat) (st : KState) : Run KState :=
  let st₁ : KState := { st with sum := 0 }
  let st₂ : KState := { st₁ with sum_gpu := st₁.sum }
  let st₃ : KState :=
    { st₂ with sum_gpu := device name iter workGroupSize (globalWorkSize n) as_gpu st₂.sum_gpu n }
  let st₄ : KState := { st₃ with sum := st₃.sum_gpu }
  andThen ([Event.writeAcc st₁.sum,
            Event.exec name workGroupSize (globalWorkSize n) as_gpu st₂.sum_gpu n,
            Event.readAcc st₄.sum], .ok ()) fun _ =>
  andThen (raiseFail reference_sum st₄.sum "GPU results should be consistent!" file 49) fun _ =>
  ([Event.lap (.gpu name)], .ok { st₄ with laps := st₄.laps + 1 })

/-- The function `exec_kernel`. The buffer `sum_gpu` is not initialised by
`resizeN`; `junk` is what it holds before the first write. -/
def exec_kernel (device : Device) (file : String) (junk : Nat) (as : List Nat)
    (n reference_sum : Nat) (benchmarkingIters : Int) (name : String) : Run Unit :=
  let as_gpu := as.take n
  andThen ([Event.resizeInput n, Event.writeInput as_gpu, Event.resizeAcc,
            Event.compile name], .ok ()) fun _ =>
  andThen (forLoop (kernelBody device file as_gpu n reference_sum name)
            benchmarkingIters.toNat 0 { sum := 0, sum_gpu := junk, laps := 0 }) fun st =>
  ([Event.report (.gpu name) st.laps], .ok ())

/-! ## The program -/

/-- The seven strategies in the order in which `main` runs them. -/
def strategies : List Strategy :=
  [.cpu, .cpuOmp, .gpu "sum_global_atomic_add", .gpu "sum_cycle", .gpu "sum_cycle_coalesced",
   .gpu "sum_local_mem_main_thread", .gpu "sum_tree"]

/-- The body of `main` for an element count `n` and `benchmarkingIters` trials. -/
def mainWith (next : Nat → Nat → Nat → Int) (omp : Nat → List (List Nat)) (device : Device)
    (file : String) (junk : Nat) (n : Nat) (benchmarkingIters : Int) : Run Unit :=
  let g := generate next n
  let as := g.1
  let reference_sum := g.2
  andThen (cpuBlock file as n reference_sum benchmarkingIters) fun _ =>
  andThen (ompBlock omp file as reference_sum benchmarkingIters) fun _ =>
  andThen (exec_kernel device file junk as n reference_sum benchmarkingIters
            "sum_global_atomic_add") fun _ =>
  andThen (exec_kernel device file junk as n reference_sum benchmarkingIters "sum_cycle") fun _ =>
  andThen (exec_kernel device file junk as n reference_sum benchmarkingIters
            "sum_cycle_coalesced") fun _ =>
  andThen (exec_kernel device file junk as n reference_sum benchmarkingIters
            "sum_local_mem_main_thread") fun _ =>
  exec_kernel device file junk as n reference_sum benchmarkingIters "sum_tree"

/-- The function `main`: `n = 100*1000*1000` and `benchmarkingIters = 10`. -/
def main (next : Nat → Nat → Nat → Int) (omp : Nat → List (List Nat)) (device : Device)
    (file : String) (junk : Nat) : Run Unit :=
  mainWith next omp device file junk (100 * 1000 * 1000) 10

/-- The global ids of the work-items of a dispatch `gpu::WorkSize(workGroupSize, globalWorkSize)`:
the groups `0, 1, ...` one after another, in each the local ids `0 .. workGroupSize - 1`;
the work-item with local id `l` of group `g` has global id `g * workGroupSize + l`. -/
def globalIds (workGroupSize globalWorkSize : Nat) : List Nat :=
  (List.range (globalWorkSize / workGroupSize)).flatMap fun g =>
    (List.range workGroupSize).map fun l => g * workGroupSize + l

/-! ## Reading a trace -/

/-- Is the event a kernel execution? -/
def Event.isExec : Event → Bool
  | .exec _ _ _ _ _ _ => true
  | _ => false

/-- Is the event a recorded lap? -/
def Event.isLap : Event → Bool
  | .lap _ => true
  | _ => false

/-- Is the event a printed report? -/
def Event.isReport : Event → Bool
  | .report _ _ => true
  | _ => false

/-- Is the event a write to `std::cerr`? -/
def Event.isCerr : Event → Bool
  | .cerr _ => true
  | _ => false

/-- Is the event a host-to-device write of the input buffer? -/
def Event.isWriteInput : Event → Bool
  | .writeInput _ => true
  | _ => false

/-- The text of a write to `std::cerr`. -/
def cerrOf : Event → Option String
  | .cerr text => some text
  | _ => none

/-- The texts written to `std::cerr` during a run, in order. -/
def cerrTexts (tr : List Event) : List String := tr.filterMap cerrOf

/-- The values read back from the accumulator buffer during a run, in order. -/
def readBacks : List Event → List Nat
  | [] => []
  | .readAcc v :: rest => v :: readBacks rest
  | _ :: rest => readBacks rest

/-- The events of a passing trial of `exec_kernel`, as the trace lemmas below list them. -/
def kernelOkEvents (name : String) (as_gpu : List Nat) (n reference_sum : Nat) : List Event :=
  [Event.writeAcc 0, Event.exec name workGroupSize (globalWorkSize n) as_gpu 0 n,
   Event.readAcc reference_sum, Event.lap (.gpu name)]

/-- The events of a failing trial of `exec_kernel` that reads back `v`. -/
def kernelFailEvents (file name : String) (as_gpu : List Nat) (n reference_sum v : Nat) :
    List Event :=
  [Event.writeAcc 0, Event.exec name workGroupSize (globalWorkSize n) as_gpu 0 n,
   Event.readAcc v,
   Event.cerr ("GPU results should be consistent!" ++ " But " ++ toString reference_sum
     ++ " != " ++ toString v ++ ", " ++ file ++ ":" ++ toString (49 : Int) ++ "\n")]


/-- Holds of two consecutive events `x`, `y` unless `y` is a kernel execution that does not
directly follow a write of `0` to the accumulator buffer. -/
def ResetBefore (x y : Event) : Prop := y.isExec = true → x = Event.writeAcc 0

/-! ## Example devices -/

/-- An example device: every kernel adds the sum of the input buffer to the accumulator. -/
def exactDevice : Device :=
  fun _ _ _ _ input acc _ => wadd acc (input.sum % 2 ^ 32)

/-- An example device whose result is off by one in trial `bad` of every kernel, and in every
trial of the kernel called `badName`. -/
def corruptedDevice (bad : Nat) (badName : String) : Device :=
  fun name iter w g input acc n =>
    if iter = bad ∨ name = badName then wadd (exactDevice name iter w g input acc n) 1
    else exactDevice name iter w g input acc n

/-- The strategy a trial event belongs to: a pass of a host summation loop, or the execution
of a kernel. -/
def trialOf : Event → Option Strategy
  | .exec name _ _ _ _ _ => some (.gpu name)
  | .hostSum s _ _ => some s
  | _ => none

/-- The strategy a report event belongs to. -/
def reportOf : Event → Option Strategy
  | .report s _ => some s
  | _ => none

/-- The strategies of the trials executed during a run, in order of execution. -/
def trialSeq (tr : List Event) : List Strategy := tr.filterMap trialOf

/-- The strategies whose report was printed during a run, in order of printing. -/
def reportSeq (tr : List Event) : List Strategy := tr.filterMap reportOf

/-- The sum that trial `t` of strategy `s` computes in `mainWith`, to be compared with
`reference_sum`. -/
def strategyValue (next : Nat → Nat → Nat → Int) (omp : Nat → List (List Nat))
    (device : Device) (n : Nat) (s : Strategy) (t : Nat) : Nat :=
  match s with
  | .cpu => seqSum (generate next n).1 n
  | .cpuOmp => ompSum (generate next n).1 (omp t)
  | .gpu name =>
    device name t workGroupSize (globalWorkSize n) ((generate next n).1.take n) 0 n

/-- The message of the consistency check of strategy `s`. -/
def checkMessage : Strategy → String
  | .cpu => "CPU result should be consistent!"
  | .cpuOmp => "CPU OpenMP result should be consistent!"
  | .gpu _ => "GPU results should be consistent!"

/-- The line of `main_sum.cpp` that holds the consistency check of strategy `s`. -/
def checkLine : Strategy → Int
  | .cpu => 77
  | .cpuOmp => 92
  | .gpu _ => 49

/-- A sequence of blocks run one after another; a block that throws ends the sequence. -/
def runAll : List (Run Unit) → Run Unit
  | [] => ([], .ok ())
  | b :: bs => andThen b fun _ => runAll bs

/-- The block of `mainWith` that benchmarks strategy `s`. -/
def blockOf (next : Nat → Nat → Nat → Int) (omp : Nat → List (List Nat)) (device : Device)
    (file : String) (junk : Nat) (n : Nat) (benchmarkingIters : Int) (s : Strategy) : Run Unit :=
  match s with
  | .cpu => cpuBlock file (generate next n).1 n (generate next n).2 benchmarkingIters
  | .cpuOmp => ompBlock omp file (generate next n).1 (generate next n).2 benchmarkingIters
  | .gpu name =>
    exec_kernel device file junk (generate next n).1 n (generate next n).2 benchmarkingIters name

/-- The diagnostic of a failed consistency check of strategy `s`, for the expected value
`expected` and the computed value `actual`. -/
def diagnostic (file : String) (s : Strategy) (expected actual : Nat) : String :=
  checkMessage s ++ " But " ++ toString expected ++ " != " ++ toString actual ++ ", " ++ file
    ++ ":" ++ toString (checkLine s) ++ "\n"

/-- A block of strategy `s` all of whose `K` trials passed: it returned normally after `K`
trials and one report, with nothing on `std::cerr`. -/
def BlockPass (K : Nat) (s : Strategy) (b : Run Unit) : Prop :=
  b.2 = .ok () ∧ trialSeq b.1 = List.replicate K s ∧ reportSeq b.1 = [s] ∧ cerrTexts b.1 = []

/-- A block of strategy `s` whose trial `j` was the first to fail: it raised after `j + 1`
trials, with no report and the text `d` on `std::cerr`. -/
def BlockFail (j : Nat) (s : Strategy) (d : String) (b : Run Unit) : Prop :=
  b.2 = .error (checkMessage s) ∧ trialSeq b.1 = List.replicate (j + 1) s ∧ reportSeq b.1 = []
    ∧ cerrTexts b.1 = [d]

/-! ## The five device kernels

The kernels are compiled from the OpenCL source of the repository (`cl/sum.cl`, included as
`cl/sum_cl.h`), which is not part of `src/`. They are modelled here from the table of section
4.4 of the specification. Work-items run concurrently; what the model keeps of the concurrency
is the order in which the atomic additions to the accumulator take effect, a parameter of
every kernel. -/

/-- Modelled from the spec: the kernel source is missing; this is the value a work-item
contributes for the element index `i`: `input[i]` when `i` is in range, and zero otherwise
("out-of-range indices must contribute zero, not garbage"). -/
def element (input : List Nat) (n i : Nat) : Nat :=
  if i < n then input.getD i 0 else 0

/-- Modelled from the spec: the kernel source is missing; this is the atomic add capability on
the accumulator storage: the contributions are added to the 32-bit accumulator one at a time,
in the order of the list. -/
def atomicAdds (acc : Nat) (contributions : List Nat) : Nat :=
  contributions.foldl wadd acc

/-- Modelled from the spec: the kernel source is missing; this is the local partial sum of one
work-item over the element indices it is responsible for, in 32-bit arithmetic. -/
def privateSum (input : List Nat) (indices : List Nat) : Nat :=
  indices.foldl (fun sum i => wadd sum (input.getD i 0)) 0

/-- Modelled from the spec: the kernel source is missing; this is `global_atomic_add`: "every
thread handles one element and atomically adds it directly to the single shared global
accumulator". `order` lists the global ids of the work-items in the order in which their
atomic adds take effect. -/
def sum_global_atomic_add (order : List Nat) (input : List Nat) (acc n : Nat) : Nat :=
  atomicAdds acc (order.map fun gid => element input n gid)

/-- Modelled from the spec: the kernel source is missing; these are the elements of thread `i`
of `cycle`: "thread `i` sums elements `i, i+stride, i+2*stride, ...`", as far as they are
below `n` (no more than `n` steps are needed for a stride of at least one). -/
def cycleElements (stride n i : Nat) : List Nat :=
  ((List.range n).map fun k => i + k * stride).filter fun idx => idx < n

/-- Modelled from the spec: the kernel source is missing; this is `cycle`: each thread sums
its elements, "spaced by the total thread count", into a local partial sum and "then
atomically adds its partial into the global accumulator once". -/
def sum_cycle (order : List Nat) (globalWorkSize : Nat) (input : List Nat) (acc n : Nat) : Nat :=
  atomicAdds acc (order.map fun gid => privateSum input (cycleElements globalWorkSize n gid))

/-- Modelled from the spec: the kernel source is missing; these are the elements of the
work-item `gid` of `cycle_coalesced`: the threads of a group "read adjacent memory addresses on
each step (stride equals the group's width)". The specification leaves the number of steps per
thread open; it is the parameter `steps`, and group `g` then owns the `workGroupSize * steps`
consecutive elements that start at `g * (workGroupSize * steps)`. -/
def coalescedElements (workGroupSize steps n gid : Nat) : List Nat :=
  ((List.range steps).map fun k =>
      gid / workGroupSize * (workGroupSize * steps) + k * workGroupSize + gid % workGroupSize).filter
    fun idx => idx < n

/-- Modelled from the spec: the kernel source is missing; this is `cycle_coalesced`: the "same
per-thread responsibility pattern as cycle", with the elements of `coalescedElements`. -/
def sum_cycle_coalesced (order : List Nat) (workGroupSize steps : Nat) (input : List Nat)
    (acc n : Nat) : Nat :=
  atomicAdds acc
    (order.map fun gid => privateSum input (coalescedElements workGroupSize steps n gid))

/-- Modelled from the spec: the kernel source is missing; this is the group-local scratch
buffer of group `g`, "one slot per thread", after each thread has stored its element. -/
def localBuffer (workGroupSize : Nat) (input : List Nat) (n g : Nat) : List Nat :=
  (List.range workGroupSize).map fun l => element input n (g * workGroupSize + l)

/-- Modelled from the spec: the kernel source is missing; this is `local_mem_main_thread`:
after the group has filled its scratch buffer, "a single designated thread within the group
serially sums the group-local buffer and performs one atomic add of the group total into the
global accumulator". `groupOrder` lists the groups in the order in which their atomic adds
take effect. -/
def sum_local_mem_main_thread (groupOrder : List Nat) (workGroupSize : Nat) (input : List Nat)
    (acc n : Nat) : Nat :=
  atomicAdds acc
    (groupOrder.map fun g => (localBuffer workGroupSize input n g).foldl wadd 0)

/-- Modelled from the spec: the kernel source is missing; this is one round of the pairwise
tree: "each active thread adds its partner's partial into its own slot"; the threads
`0 .. active - 1` are active and the partner of thread `l` is thread `l + active`. -/
def treeRound (active : Nat) (buf : List Nat) : List Nat :=
  (List.range buf.length).map fun l =>
    if l < active then wadd (buf.getD l 0) (buf.getD (l + active) 0) else buf.getD l 0

/-- Modelled from the spec: the kernel source is missing; these are `rounds` rounds of the
pairwise tree on a buffer of which `width` slots are still to be combined: "each round halves
the active thread count". -/
def treeRounds : Nat → Nat → List Nat → List Nat
  | 0, _, buf => buf
  | rounds + 1, width, buf => treeRounds rounds (width / 2) (treeRound (width / 2) buf)

/-- Modelled from the spec: the kernel source is missing; this is the number of rounds
`log2(group_size)` of the tree, computed as the number of `k ≥ 1` with `2 ^ k ≤ group_size`. -/
def log2 (workGroupSize : Nat) : Nat :=
  (List.range workGroupSize).countP fun k => decide (2 ^ (k + 1) ≤ workGroupSize)

/-- Modelled from the spec: the kernel source is missing; this is `tree`: each group fills its
scratch buffer, reduces it in `log2(group_size)` rounds and finishes "with exactly one atomic
add of the group's final total into the global accumulator per group". -/
def sum_tree (groupOrder : List Nat) (workGroupSize : Nat) (input : List Nat) (acc n : Nat) :
    Nat :=
  atomicAdds acc
    (groupOrder.map fun g =>
      (treeRounds (log2 workGroupSize) workGroupSize
        (localBuffer workGroupSize input n g)).getD 0 0)

/-! ## Lemmas on wrapping sums -/

theorem foldl_wadd_mod {ι : Type} (f : ι → Nat) (l : List ι) (s : Nat) :
    (l.foldl (fun sum i => wadd sum (f i)) s) % 2 ^ 32 = (s + (l.map f).sum) % 2 ^ 32 := by
  induction l generalizing s with
  | nil => simp
  | cons a l ih =>
    simp only [List.foldl_cons, List.map_cons, List.sum_cons]
    rw [ih, wadd]
    omega

theorem foldl_wadd_lt {ι : Type} (f : ι → Nat) (l : List ι) (s : Nat) (hs : s < 2 ^ 32) :
    l.foldl (fun sum i => wadd sum (f i)) s < 2 ^ 32 := by
  induction l generalizing s with
  | nil => simpa using hs
  | cons a l ih =>
    simp only [List.foldl_cons]
    exact ih _ (Nat.mod_lt _ (by norm_num))

theorem foldl_wadd_zero {ι : Type} (f : ι → Nat) (l : List ι) :
    l.foldl (fun sum i => wadd sum (f i)) 0 = (l.map f).sum % 2 ^ 32 := by
  have h := foldl_wadd_mod f l 0
  rw [Nat.mod_eq_of_lt (foldl_wadd_lt f l 0 (by norm_num))] at h
  simpa using h

theorem sum_map_mod {ι : Type} (g : ι → Nat) (l : List ι) :
    (l.map fun x => g x % 2 ^ 32).sum % 2 ^ 32 = (l.map g).sum % 2 ^ 32 := by
  induction l with
  | nil => rfl
  | cons a l ih =>
    simp only [List.map_cons, List.sum_cons]
    omega

theorem map_getD_range (as : List Nat) :
    (List.range as.length).map (fun i => as.getD i 0) = as := by
  apply List.ext_getElem
  · simp
  · intro i h₁ h₂
    simp [List.getD_eq_getElem?_getD, List.getElem?_eq_getElem h₂]

theorem seqSum_eq (as : List Nat) : seqSum as as.length = as.sum % 2 ^ 32 := by
  unfold seqSum
  rw [foldl_wadd_zero, map_getD_range]

theorem sum_le_of_bound (as : List Nat) (b : Nat) (h : ∀ x ∈ as, x ≤ b) :
    as.sum ≤ as.length * b := by
  induction as with
  | nil => simp
  | cons a l ih =>
    have h₁ : a ≤ b := h a (List.mem_cons_self _ _)
    have h₂ := ih fun x hx => h x (List.mem_cons_of_mem _ hx)
    simp only [List.sum_cons, List.length_cons]
    nlinarith

/-- The values the generation loop stores: the casts of the generator's draws. -/
theorem generate_invariant (next : Nat → Nat → Nat → Int) (n k : Nat) (hk : k ≤ n) :
    (List.range k).foldl
      (fun (st : List Nat × Nat) (i : Nat) =>
        let as := st.1.set i (toUInt (next i 0 (UINT_MAX / n)))
        (as, wadd st.2 (as.getD i 0)))
      (List.replicate n 0, 0)
    = ((List.range k).map (fun i => toUInt (next i 0 (UINT_MAX / n))) ++ List.replicate (n - k) 0,
       (List.range k).foldl (fun sum i => wadd sum (toUInt (next i 0 (UINT_MAX / n)))) 0) := by
  induction k with
  | zero => simp
  | succ k ih =>
    rw [List.range_succ, List.foldl_append, ih (by omega)]
    simp only [List.foldl_cons, List.foldl_nil, List.map_append, List.map_cons, List.map_nil]
    have hrep : List.replicate (n - k) 0 = (0 : Nat) :: List.replicate (n - (k + 1)) 0 := by
      rw [← List.replicate_succ]; congr 1; omega
    have hlen : ((List.range k).map (fun i => toUInt (next i 0 (UINT_MAX / n)))).length = k := by
      simp
    rw [hrep]
    have hset : ∀ x : Nat, ((List.range k).map (fun i => toUInt (next i 0 (UINT_MAX / n)))
        ++ (0 : Nat) :: List.replicate (n - (k + 1)) 0).set k x
        = (List.range k).map (fun i => toUInt (next i 0 (UINT_MAX / n)))
          ++ x :: List.replicate (n - (k + 1)) 0 := by
      intro x
      rw [List.set_append_right _ _ (by simp)]
      simp
    rw [hset]
    have hget : ∀ x : Nat, ((List.range k).map (fun i => toUInt (next i 0 (UINT_MAX / n)))
        ++ x :: List.replicate (n - (k + 1)) 0).getD k 0 = x := by
      intro x
      rw [List.getD_eq_getElem?_getD, List.getElem?_append_right (by simp)]
      simp
    rw [hget]
    simp [List.foldl_append]

theorem generate_eq (next : Nat → Nat → Nat → Int) (n : Nat) :
    generate next n
      = ((List.range n).map (fun i => toUInt (next i 0 (UINT_MAX / n))),
         (List.range n).foldl (fun sum i => wadd sum (toUInt (next i 0 (UINT_MAX / n)))) 0) := by
  unfold generate
  rw [generate_invariant next n n (le_refl n)]
  simp

theorem toUInt_natCast (v : Nat) (h : v < 2 ^ 32) : toUInt (v : Int) = v := by
  unfold toUInt
  have : ((v : Int) % 2 ^ 32) = (v : Int) := Int.emod_eq_of_lt (by omega) (by exact_mod_cast h)
  rw [this]
  simp

theorem uint_max_div_mul_le (n : Nat) : n * (UINT_MAX / n) ≤ UINT_MAX :=
  Nat.mul_div_le UINT_MAX n

/-- The generation loop stores the workload the generator delivers and accumulates its sum
modulo `2 ^ 32`. -/
theorem generate_workload (next : Nat → Nat → Nat → Int) (n : Nat) (w : List Nat)
    (hlen : w.length = n) (hu : ∀ x ∈ w, x < 2 ^ 32)
    (hnext : ∀ i, i < n → next i 0 (UINT_MAX / n) = ((w.getD i 0 : Nat) : Int)) :
    generate next n = (w, w.sum % 2 ^ 32) := by
  have hval : ∀ i, i ∈ List.range n → toUInt (next i 0 (UINT_MAX / n)) = w.getD i 0 := by
    intro i hi
    have hi' : i < n := List.mem_range.mp hi
    rw [hnext i hi']
    apply toUInt_natCast
    have hiw : i < w.length := by omega
    have hmem : w.getD i 0 ∈ w := by
      rw [List.getD_eq_getElem?_getD, List.getElem?_eq_getElem hiw]
      exact List.getElem_mem hiw
    exact hu _ hmem
  have hmap : (List.range n).map (fun i => toUInt (next i 0 (UINT_MAX / n))) = w := by
    rw [List.map_congr_left hval, ← hlen]
    exact map_getD_range w
  rw [generate_eq, foldl_wadd_zero, hmap]

/-- A workload of `n` values, each at most `UINT_MAX / n`, has a sum of at most `UINT_MAX`. -/
theorem bounded_sum_le (n : Nat) (w : List Nat) (hlen : w.length = n)
    (hb : ∀ x ∈ w, x ≤ UINT_MAX / n) : w.sum ≤ UINT_MAX := by
  have h₁ := sum_le_of_bound w (UINT_MAX / n) hb
  rw [hlen] at h₁
  exact le_trans h₁ (uint_max_div_mul_le n)

theorem bounded_lt (n : Nat) (w : List Nat) (hb : ∀ x ∈ w, x ≤ UINT_MAX / n) :
    ∀ x ∈ w, x < 2 ^ 32 := by
  intro x hx
  have h₂ := hb x hx
  have h₃ : UINT_MAX / n ≤ UINT_MAX := Nat.div_le_self _ _
  unfold UINT_MAX at h₂ h₃
  omega

/-! ## C1: the reference sum is exact -/

/-- C1. For every element count `n > 0` and every workload `w` of `n` values, each at most
`UINT_MAX / n`, delivered by the generator, the generation loop of `main` stores exactly `w`
and its wrapping accumulation `reference_sum += as[i]` ends with the exact mathematical sum of
`w`, which is at most `UINT_MAX`: the accumulation never wraps. -/
theorem generate_reference_sum_exact (next : Nat → Nat → Nat → Int) (n : Nat) (w : List Nat)
    (_hn : 0 < n) (hlen : w.length = n) (hb : ∀ x ∈ w, x ≤ UINT_MAX / n)
    (hnext : ∀ i, i < n → next i 0 (UINT_MAX / n) = ((w.getD i 0 : Nat) : Int)) :
    generate next n = (w, w.sum) ∧ w.sum ≤ UINT_MAX := by
  have hsum : w.sum ≤ UINT_MAX := bounded_sum_le n w hlen hb
  refine ⟨?_, hsum⟩
  rw [generate_workload next n w hlen (bounded_lt n w hb) hnext]
  congr 1
  apply Nat.mod_eq_of_lt
  unfold UINT_MAX at hsum
  omega

/-- Witness of C1: a workload of three elements at the bound `UINT_MAX / 3 = 1431655765`; and
the constants of the program, `n = 100000000`, give the bound `42` and the maximal sum
`4200000000`. -/
theorem generate_reference_sum_exact_witness :
    generate (fun i _ _ => (([1431655765, 0, 1431655765] : List Nat).getD i 0 : Nat)) 3
        = ([1431655765, 0, 1431655765], 2863311530)
      ∧ 2863311530 ≤ UINT_MAX
      ∧ UINT_MAX / 100000000 = 42 ∧ 100000000 * 42 = 4200000000 ∧ 4200000000 ≤ UINT_MAX :=
  ⟨(generate_reference_sum_exact (fun i _ _ => (([1431655765, 0, 1431655765] : List Nat).getD i 0 : Nat))
      3 [1431655765, 0, 1431655765] (by decide) rfl (by decide) (fun _ _ => rfl)).1,
   by decide, by decide, by decide, by decide⟩

/-! ## C5, C6: the work partition -/

theorem globalWorkSize_of_no_wrap (n : Nat) (h : n + 31 < 2 ^ 32) :
    globalWorkSize n = (n + 31) / 32 * 32 := by
  unfold globalWorkSize workGroupSize
  norm_num at h ⊢
  omega

/-- C5. For every element count `n` with `n + 31` representable in 32 bits, `globalWorkSize`
is the smallest multiple of `workGroupSize = 32` that is at least `n`: it is divisible by 32,
lies in `[n, n + 32)`, is below every other multiple of 32 that is at least `n`, and equals `n`
when `n` is itself a multiple of 32. -/
theorem globalWorkSize_is_round_up (n : Nat) (h : n + 31 < 2 ^ 32) :
    workGroupSize ∣ globalWorkSize n
      ∧ n ≤ globalWorkSize n
      ∧ globalWorkSize n < n + workGroupSize
      ∧ (∀ m, workGroupSize ∣ m → n ≤ m → globalWorkSize n ≤ m)
      ∧ (workGroupSize ∣ n → globalWorkSize n = n) := by
  rw [globalWorkSize_of_no_wrap n h]
  unfold workGroupSize
  refine ⟨Nat.dvd_mul_left _ _, by omega, by omega, ?_, ?_⟩
  · rintro m ⟨k, rfl⟩ hk
    omega
  · rintro ⟨k, rfl⟩
    omega

/-- Witness of C5: `n = 100` gives `128`, that is 4 groups of 32, and `n = 0` gives `0`. -/
theorem globalWorkSize_is_round_up_witness :
    (workGroupSize ∣ globalWorkSize 100
      ∧ 100 ≤ globalWorkSize 100
      ∧ globalWorkSize 100 < 100 + workGroupSize
      ∧ (∀ m, workGroupSize ∣ m → 100 ≤ m → globalWorkSize 100 ≤ m)
      ∧ (workGroupSize ∣ 100 → globalWorkSize 100 = 100))
    ∧ globalWorkSize 100 = 128 ∧ globalWorkSize 100 / workGroupSize = 4
    ∧ globalWorkSize 0 = 0 :=
  ⟨globalWorkSize_is_round_up 100 (by decide), by decide, by decide, by decide⟩

theorem count_globalIds (G M i : Nat) (hG : 0 < G) (hi : i < M * G) :
    (globalIds G (M * G)).count i = 1 := by
  unfold globalIds
  rw [Nat.mul_div_cancel _ hG]
  induction M with
  | zero => simp at hi
  | succ M ih =>
    rw [List.range_succ, List.flatMap_append, List.count_append]
    by_cases h : i < M * G
    · rw [ih h]
      have : List.count i (List.flatMap [M] (fun g => List.map (fun l => g * G + l) (List.range G)))
          = 0 := by
        rw [List.count_eq_zero]
        simp
        intro x _
        omega
      omega
    · have h₀ : List.count i (List.flatMap (List.range M)
          (fun g => List.map (fun l => g * G + l) (List.range G))) = 0 := by
        rw [List.count_eq_zero]
        simp only [List.mem_flatMap, List.mem_range, List.mem_map, not_exists, not_and]
        intro g hg l hl
        have : g * G + G ≤ M * G := by
          have := Nat.mul_le_mul_right G (Nat.succ_le_of_lt hg)
          rw [Nat.succ_mul] at this
          exact this
        omega
      rw [h₀]
      have hi' : i < M * G + G := by rw [Nat.succ_mul] at hi; exact hi
      have h₁ : List.flatMap [M] (fun g => List.map (fun l => g * G + l) (List.range G))
          = List.map (fun l => M * G + l) (List.range G) := by simp
      rw [h₁]
      have hinj : Function.Injective (fun l => M * G + l) := fun a b hab => by
        simp only at hab; omega
      have hnd : (List.map (fun l => M * G + l) (List.range G)).Nodup :=
        (List.nodup_range G).map hinj
      have hmem : i ∈ List.map (fun l => M * G + l) (List.range G) := by
        rw [List.mem_map]
        exact ⟨i - M * G, List.mem_range.mpr (by omega), by omega⟩
      rw [List.count_eq_one_of_mem hnd hmem]

/-- C6 as stated fails: for the element count `n = 4294967295` the sum `n + 31` wraps, the
global span is `0`, which is below `n`, and the dispatch has no work-item at all. -/
theorem globalWorkSize_wraps :
    4294967295 < 2 ^ 32 ∧ globalWorkSize 4294967295 = 0
      ∧ ¬ (4294967295 ≤ globalWorkSize 4294967295)
      ∧ (globalIds workGroupSize (globalWorkSize 4294967295)).count 0 = 0 := by
  refine ⟨by decide, by decide, by decide, ?_⟩
  have h : globalWorkSize 4294967295 = 0 := by decide
  rw [h]
  rfl

/-- C6, amended. For every element count `n` with `n + 31` representable in 32 bits, the global
span `globalWorkSize n` is at least `n`, and every element index in `[0, n)` is the global id
of exactly one work-item of the dispatch. -/
theorem globalWorkSize_covers (n : Nat) (h : n + 31 < 2 ^ 32) :
    n ≤ globalWorkSize n
      ∧ ∀ i, i < n → (globalIds workGroupSize (globalWorkSize n)).count i = 1 := by
  have hge : n ≤ globalWorkSize n := by
    rw [globalWorkSize_of_no_wrap n h]
    omega
  refine ⟨hge, fun i hi => ?_⟩
  rw [globalWorkSize_of_no_wrap n h] at hge ⊢
  exact count_globalIds workGroupSize ((n + 31) / 32) i (by decide) (by unfold workGroupSize; omega)

/-- Witness of C6 (amended): `n = 100`. -/
theorem globalWorkSize_covers_witness :
    100 ≤ globalWorkSize 100
      ∧ ∀ i, i < 100 → (globalIds workGroupSize (globalWorkSize 100)).count i = 1 :=
  globalWorkSize_covers 100 (by decide)

/-! ## C7: `raiseFail` -/

/-- The text `raiseFail` writes to `std::cerr` when its two values differ. -/
theorem raiseFail_of_ne {T : Type} [DecidableEq T] [ToString T] (a b : T)
    (message filename : String) (line : Int) (h : a ≠ b) :
    raiseFail a b message filename line
      = ([Event.cerr (message ++ " But " ++ toString a ++ " != " ++ toString b ++ ", "
            ++ filename ++ ":" ++ toString line ++ "\n")], .error message) := by
  unfold raiseFail
  rw [if_pos h]

theorem raiseFail_of_eq {T : Type} [DecidableEq T] [ToString T] (a : T)
    (message filename : String) (line : Int) :
    raiseFail a a message filename line = ([], .ok ()) := by
  unfold raiseFail
  simp

/-- C7. For all values `a`, `b` and every message, file name and line, `raiseFail` raises an
error, which then carries `message`, if and only if `a ≠ b`. When `a = b` it returns normally
and writes nothing. When `a ≠ b` the only thing it does before raising is to write one text to
`std::cerr`, made of message, `" But "`, `a`, `" != "`, `b`, `", "`, the file name, `":"`, the
line and the end of line; so the text contains the message, both values, the file and the
line. -/
theorem raiseFail_spec {T : Type} [DecidableEq T] [ToString T] (a b : T)
    (message filename : String) (line : Int) :
    ((∃ e, (raiseFail a b message filename line).2 = .error e) ↔ a ≠ b)
      ∧ ((raiseFail a b message filename line).2 = .error message ↔ a ≠ b)
      ∧ (raiseFail a b message filename line = ([], .ok ()) ↔ a = b)
      ∧ (a ≠ b →
          (raiseFail a b message filename line).1
            = [Event.cerr (String.join [message, " But ", toString a, " != ", toString b, ", ",
                filename, ":", toString line, "\n"])]
          ∧ ∃ text, (raiseFail a b message filename line).1 = [Event.cerr text]
              ∧ (∃ post, text = message ++ post)
              ∧ (∃ pre post, text = pre ++ toString a ++ post)
              ∧ (∃ pre post, text = pre ++ toString b ++ post)
              ∧ (∃ pre post, text = pre ++ filename ++ post)
              ∧ (∃ pre, text = pre ++ toString line ++ "\n")) := by
  by_cases h : a = b
  · subst h
    rw [raiseFail_of_eq]
    simp
  · rw [raiseFail_of_ne a b message filename line h]
    refine ⟨by simp [h], by simp [h], by simp [h], fun _ => ⟨?_, _, rfl, ?_, ?_, ?_, ?_, ?_⟩⟩
    · simp [String.join, String.append_assoc]
    · exact ⟨" But " ++ toString a ++ " != " ++ toString b ++ ", " ++ filename ++ ":"
        ++ toString line ++ "\n", by simp only [String.append_assoc]⟩
    · exact ⟨message ++ " But ", " != " ++ toString b ++ ", " ++ filename ++ ":"
        ++ toString line ++ "\n", by simp only [String.append_assoc]⟩
    · exact ⟨message ++ " But " ++ toString a ++ " != ", ", " ++ filename ++ ":"
        ++ toString line ++ "\n", by simp only [String.append_assoc]⟩
    · exact ⟨message ++ " But " ++ toString a ++ " != " ++ toString b ++ ", ",
        ":" ++ toString line ++ "\n", by simp only [String.append_assoc]⟩
    · exact ⟨_, rfl⟩

/-- Witness of C7: the check of line 49 on the values `7` and `8`, and on `7` and `7`. -/
theorem raiseFail_spec_witness :
    (raiseFail (7 : Nat) 8 "GPU results should be consistent!" "main_sum.cpp" 49).1
        = [Event.cerr "GPU results should be consistent! But 7 != 8, main_sum.cpp:49\n"]
      ∧ (raiseFail (7 : Nat) 8 "GPU results should be consistent!" "main_sum.cpp" 49).2
        = .error "GPU results should be consistent!"
      ∧ raiseFail (7 : Nat) 7 "GPU results should be consistent!" "main_sum.cpp" 49
        = ([], .ok ()) := by
  have h := raiseFail_spec (7 : Nat) 8 "GPU results should be consistent!" "main_sum.cpp" 49
  refine ⟨?_, h.2.1.mpr (by decide), ?_⟩
  · rw [(h.2.2.2 (by decide)).1]
    decide
  · exact (raiseFail_spec (7 : Nat) 7 "GPU results should be consistent!" "main_sum.cpp" 49).2.2.1.mpr rfl

/-! ## Loops of trials -/

theorem andThen_ok {σ τ : Type} (tr : List Event) (s : σ) (second : σ → Run τ) :
    andThen (tr, .ok s) second = (tr ++ (second s).1, (second s).2) := rfl

theorem andThen_error {σ τ : Type} (tr : List Event) (e : String) (second : σ → Run τ) :
    andThen ((tr, .error e) : Run σ) second = (tr, .error e) := rfl

/-- A loop all of whose trials pass runs all of them. -/
theorem forLoop_all_ok {σ : Type} (body : Nat → σ → Run σ) (okEv : Nat → List Event)
    (nx : σ → σ) (k i : Nat) (s : σ)
    (h : ∀ t, t < k → ∀ s, body (i + t) s = (okEv (i + t), .ok (nx s))) :
    forLoop body k i s = ((List.range' i k).flatMap okEv, .ok (nx^[k] s)) := by
  induction k generalizing i s with
  | zero => simp [forLoop]
  | succ k ih =>
    have h₀ := h 0 (Nat.succ_pos k) s
    rw [Nat.add_zero] at h₀
    have ih' := ih (i + 1) (nx s) fun t ht s' => by
      have := h (t + 1) (Nat.succ_lt_succ ht) s'
      rwa [show i + (t + 1) = i + 1 + t by omega] at this
    simp only [forLoop, h₀, andThen_ok, ih', List.range'_succ, List.flatMap_cons,
      Function.iterate_succ, Function.comp_apply]

/-- A loop whose trial `i + j` is the first to fail stops there. -/
theorem forLoop_fail_at {σ : Type} (body : Nat → σ → Run σ) (okEv : Nat → List Event)
    (failEv : List Event) (e : String) (nx : σ → σ) (k i j : Nat) (s : σ) (hj : j < k)
    (hok : ∀ t, t < j → ∀ s, body (i + t) s = (okEv (i + t), .ok (nx s)))
    (hfail : ∀ s, body (i + j) s = (failEv, .error e)) :
    forLoop body k i s = ((List.range' i j).flatMap okEv ++ failEv, .error e) := by
  induction k generalizing i j s with
  | zero => omega
  | succ k ih =>
    cases j with
    | zero =>
      have h₀ := hfail s
      rw [Nat.add_zero] at h₀
      simp [forLoop, h₀, andThen_error]
    | succ j =>
      have h₀ := hok 0 (Nat.succ_pos j) s
      rw [Nat.add_zero] at h₀
      have ih' := ih (i + 1) j (nx s) (by omega)
        (fun t ht s' => by
          have := hok (t + 1) (Nat.succ_lt_succ ht) s'
          rwa [show i + (t + 1) = i + 1 + t by omega] at this)
        (fun s' => by
          have := hfail s'
          rwa [show i + (j + 1) = i + 1 + j by omega] at this)
      simp only [forLoop, h₀, andThen_ok, ih', List.range'_succ, List.flatMap_cons,
        List.append_assoc]

theorem countP_flatMap_const {α : Type} (p : Event → Bool) (f : α → List Event) (l : List α)
    (c : Nat) (h : ∀ x ∈ l, (f x).countP p = c) : (l.flatMap f).countP p = l.length * c := by
  induction l with
  | nil => simp
  | cons a l ih =>
    rw [List.flatMap_cons, List.countP_append, h a (List.mem_cons_self _ _),
      ih fun x hx => h x (List.mem_cons_of_mem _ hx), List.length_cons]
    ring

theorem iterate_laps (k : Nat) (st : KState) (r : Nat) :
    (fun s : KState => ({ sum := r, sum_gpu := r, laps := s.laps + 1 } : KState))^[k] st
      = if k = 0 then st else { sum := r, sum_gpu := r, laps := st.laps + k } := by
  induction k generalizing st with
  | zero => simp
  | succ k ih =>
    rw [Function.iterate_succ_apply, ih]
    by_cases hk : k = 0
    · simp [hk]
    · simp [hk]; omega

theorem iterate_succ_laps (k l : Nat) : (fun x : Nat => x + 1)^[k] l = l + k := by
  induction k generalizing l with
  | zero => rfl
  | succ k ih => rw [Function.iterate_succ_apply, ih]; omega

/-! ## One trial of each block -/

/-- The events of a passing trial of `exec_kernel`. -/
theorem kernelBody_ok (device : Device) (file : String) (as_gpu : List Nat)
    (n reference_sum : Nat) (name : String) (iter : Nat) (st : KState)
    (h : device name iter workGroupSize (globalWorkSize n) as_gpu 0 n = reference_sum) :
    kernelBody device file as_gpu n reference_sum name iter st
      = ([Event.writeAcc 0, Event.exec name workGroupSize (globalWorkSize n) as_gpu 0 n,
          Event.readAcc reference_sum, Event.lap (.gpu name)],
         .ok { sum := reference_sum, sum_gpu := reference_sum, laps := st.laps + 1 }) := by
  simp [kernelBody, andThen, h, raiseFail]

/-- The events of a failing trial of `exec_kernel`. -/
theorem kernelBody_fail (device : Device) (file : String) (as_gpu : List Nat)
    (n reference_sum : Nat) (name : String) (iter : Nat) (st : KState)
    (h : device name iter workGroupSize (globalWorkSize n) as_gpu 0 n ≠ reference_sum) :
    kernelBody device file as_gpu n reference_sum name iter st
      = ([Event.writeAcc 0, Event.exec name workGroupSize (globalWorkSize n) as_gpu 0 n,
          Event.readAcc (device name iter workGroupSize (globalWorkSize n) as_gpu 0 n),
          Event.cerr ("GPU results should be consistent!" ++ " But " ++ toString reference_sum
            ++ " != " ++ toString (device name iter workGroupSize (globalWorkSize n) as_gpu 0 n)
            ++ ", " ++ file ++ ":" ++ toString (49 : Int) ++ "\n")],
         .error "GPU results should be consistent!") := by
  have h' : reference_sum ≠ device name iter workGroupSize (globalWorkSize n) as_gpu 0 n :=
    fun e => h e.symm
  simp only [kernelBody, andThen, raiseFail_of_ne _ _ _ _ _ h']
  rfl

/-! ## C3: the measurement protocol of `exec_kernel` -/

/-- The run of `exec_kernel` when every trial reads back the reference sum. -/
theorem exec_kernel_all_ok (device : Device) (file : String) (junk : Nat) (as : List Nat)
    (n reference_sum : Nat) (K : Nat) (name : String)
    (h : ∀ t, t < K →
      device name t workGroupSize (globalWorkSize n) (as.take n) 0 n = reference_sum) :
    exec_kernel device file junk as n reference_sum (K : Int) name
      = ([Event.resizeInput n, Event.writeInput (as.take n), Event.resizeAcc,
            Event.compile name]
          ++ (List.range' 0 K).flatMap (fun _ => kernelOkEvents name (as.take n) n reference_sum)
          ++ [Event.report (.gpu name) K], .ok ()) := by
  have hloop := forLoop_all_ok (kernelBody device file (as.take n) n reference_sum name)
    (fun _ => kernelOkEvents name (as.take n) n reference_sum)
    (fun s => { sum := reference_sum, sum_gpu := reference_sum, laps := s.laps + 1 })
    K 0 { sum := 0, sum_gpu := junk, laps := 0 }
    (fun t ht s => by
      rw [Nat.zero_add]
      exact kernelBody_ok device file (as.take n) n reference_sum name t s (h t ht))
  unfold exec_kernel
  simp only [Int.toNat_ofNat, andThen_ok, hloop, iterate_laps]
  by_cases hK : K = 0
  · subst hK; simp
  · simp [hK]

/-- The run of `exec_kernel` when trial `j` is the first to read back another value. -/
theorem exec_kernel_fail_at (device : Device) (file : String) (junk : Nat) (as : List Nat)
    (n reference_sum : Nat) (K : Nat) (name : String) (j : Nat) (hj : j < K)
    (hok : ∀ t, t < j →
      device name t workGroupSize (globalWorkSize n) (as.take n) 0 n = reference_sum)
    (hfail : device name j workGroupSize (globalWorkSize n) (as.take n) 0 n ≠ reference_sum) :
    exec_kernel device file junk as n reference_sum (K : Int) name
      = ([Event.resizeInput n, Event.writeInput (as.take n), Event.resizeAcc,
            Event.compile name]
          ++ ((List.range' 0 j).flatMap
                (fun _ => kernelOkEvents name (as.take n) n reference_sum)
              ++ kernelFailEvents file name (as.take n) n reference_sum
                  (device name j workGroupSize (globalWorkSize n) (as.take n) 0 n)),
          .error "GPU results should be consistent!") := by
  have hloop := forLoop_fail_at (kernelBody device file (as.take n) n reference_sum name)
    (fun _ => kernelOkEvents name (as.take n) n reference_sum)
    (kernelFailEvents file name (as.take n) n reference_sum
      (device name j workGroupSize (globalWorkSize n) (as.take n) 0 n))
    "GPU results should be consistent!"
    (fun s => { sum := reference_sum, sum_gpu := reference_sum, laps := s.laps + 1 })
    K 0 j { sum := 0, sum_gpu := junk, laps := 0 } hj
    (fun t ht s => by
      rw [Nat.zero_add]
      exact kernelBody_ok device file (as.take n) n reference_sum name t s (hok t ht))
    (fun s => by
      rw [Nat.zero_add]
      exact kernelBody_fail device file (as.take n) n reference_sum name j s hfail)
  unfold exec_kernel
  simp only [Int.toNat_ofNat, andThen_ok, hloop, andThen_error]

/-- C3. With the kernel an arbitrary function giving the value read back on each trial, for
every iteration count `K`: if every trial reads back `reference_sum`, `exec_kernel` executes the
kernel exactly `K` times, records exactly `K` laps, prints its report and returns normally; if
trial `j` is the first to read back another value, it executes the kernel exactly `j + 1`
times, records exactly `j` laps, raises an error and prints no report. -/
theorem exec_kernel_protocol (device : Device) (file : String) (junk : Nat) (as : List Nat)
    (n reference_sum : Nat) (K : Nat) (name : String) :
    ((∀ t, t < K →
        device name t workGroupSize (globalWorkSize n) (as.take n) 0 n = reference_sum) →
      ((exec_kernel device file junk as n reference_sum (K : Int) name).1.countP Event.isExec = K
        ∧ (exec_kernel device file junk as n reference_sum (K : Int) name).1.countP Event.isLap = K
        ∧ (exec_kernel device file junk as n reference_sum (K : Int) name).1.filter Event.isReport
            = [Event.report (.gpu name) K]
        ∧ (exec_kernel device file junk as n reference_sum (K : Int) name).1.countP Event.isCerr = 0
        ∧ (exec_kernel device file junk as n reference_sum (K : Int) name).2 = .ok ()))
    ∧ (∀ j, j < K →
        (∀ t, t < j →
          device name t workGroupSize (globalWorkSize n) (as.take n) 0 n = reference_sum) →
        device name j workGroupSize (globalWorkSize n) (as.take n) 0 n ≠ reference_sum →
        ((exec_kernel device file junk as n reference_sum (K : Int) name).1.countP Event.isExec
            = j + 1
          ∧ (exec_kernel device file junk as n reference_sum (K : Int) name).1.countP Event.isLap
            = j
          ∧ (exec_kernel device file junk as n reference_sum (K : Int) name).1.countP
              Event.isReport = 0
          ∧ (exec_kernel device file junk as n reference_sum (K : Int) name).1.countP
              Event.isCerr = 1
          ∧ (exec_kernel device file junk as n reference_sum (K : Int) name).2
            = .error "GPU results should be consistent!")) := by
  constructor
  · intro h
    rw [exec_kernel_all_ok device file junk as n reference_sum K name h]
    have hc : ∀ p : Event → Bool, ∀ c : Nat,
        (kernelOkEvents name (as.take n) n reference_sum).countP p = c →
        ((List.range' 0 K).flatMap
          (fun _ => kernelOkEvents name (as.take n) n reference_sum)).countP p = K * c := by
      intro p c hp
      rw [countP_flatMap_const p _ _ c (fun _ _ => hp), List.length_range']
    refine ⟨?_, ?_, ?_, ?_, rfl⟩
    · simp only [List.countP_append, hc Event.isExec 1 rfl]
      simp [Event.isExec]
    · simp only [List.countP_append, hc Event.isLap 1 rfl]
      simp [Event.isLap]
    · have h0 := hc Event.isReport 0 rfl
      rw [Nat.mul_zero, List.countP_eq_zero] at h0
      have hf : ((List.range' 0 K).flatMap
          (fun _ => kernelOkEvents name (as.take n) n reference_sum)).filter Event.isReport
          = [] := by
        rw [List.filter_eq_nil_iff]
        exact h0
      simp only [List.filter_append, hf]
      simp [Event.isReport]
    · simp only [List.countP_append, hc Event.isCerr 0 rfl]
      simp [Event.isCerr]
  · intro j hj hok hfail
    rw [exec_kernel_fail_at device file junk as n reference_sum K name j hj hok hfail]
    have hc : ∀ p : Event → Bool, ∀ c : Nat,
        (kernelOkEvents name (as.take n) n reference_sum).countP p = c →
        ((List.range' 0 j).flatMap
          (fun _ => kernelOkEvents name (as.take n) n reference_sum)).countP p = j * c := by
      intro p c hp
      rw [countP_flatMap_const p _ _ c (fun _ _ => hp), List.length_range']
    refine ⟨?_, ?_, ?_, ?_, rfl⟩
    · simp only [List.countP_append, hc Event.isExec 1 rfl]
      simp [Event.isExec, kernelFailEvents]
    · simp only [List.countP_append, hc Event.isLap 1 rfl]
      simp [Event.isLap, kernelFailEvents]
    · simp only [List.countP_append, hc Event.isReport 0 rfl]
      simp [Event.isReport, kernelFailEvents]
    · simp only [List.countP_append, hc Event.isCerr 0 rfl]
      simp [Event.isCerr, kernelFailEvents]

/-- Witness of C3: three passing trials on the workload `[1, 2, 3]`; and four trials of which
trial `2` is the first to read back a wrong value. -/
theorem exec_kernel_protocol_witness :
    ((exec_kernel exactDevice "main_sum.cpp" 0 [1, 2, 3] 3 6 ((3 : Nat) : Int) "sum_tree").1.countP
          Event.isExec = 3
      ∧ (exec_kernel exactDevice "main_sum.cpp" 0 [1, 2, 3] 3 6 ((3 : Nat) : Int) "sum_tree").1.countP
          Event.isLap = 3
      ∧ (exec_kernel exactDevice "main_sum.cpp" 0 [1, 2, 3] 3 6 ((3 : Nat) : Int)
          "sum_tree").1.filter Event.isReport = [Event.report (.gpu "sum_tree") 3]
      ∧ (exec_kernel exactDevice "main_sum.cpp" 0 [1, 2, 3] 3 6 ((3 : Nat) : Int) "sum_tree").1.countP
          Event.isCerr = 0
      ∧ (exec_kernel exactDevice "main_sum.cpp" 0 [1, 2, 3] 3 6 ((3 : Nat) : Int) "sum_tree").2
          = .ok ())
    ∧ ((exec_kernel (corruptedDevice 2 "") "main_sum.cpp" 0 [1, 2, 3] 3 6 ((4 : Nat) : Int)
          "sum_tree").1.countP Event.isExec = 2 + 1
      ∧ (exec_kernel (corruptedDevice 2 "") "main_sum.cpp" 0 [1, 2, 3] 3 6 ((4 : Nat) : Int)
          "sum_tree").1.countP Event.isLap = 2
      ∧ (exec_kernel (corruptedDevice 2 "") "main_sum.cpp" 0 [1, 2, 3] 3 6 ((4 : Nat) : Int)
          "sum_tree").1.countP Event.isReport = 0
      ∧ (exec_kernel (corruptedDevice 2 "") "main_sum.cpp" 0 [1, 2, 3] 3 6 ((4 : Nat) : Int)
          "sum_tree").1.countP Event.isCerr = 1
      ∧ (exec_kernel (corruptedDevice 2 "") "main_sum.cpp" 0 [1, 2, 3] 3 6 ((4 : Nat) : Int)
          "sum_tree").2 = .error "GPU results should be consistent!") :=
  ⟨(exec_kernel_protocol exactDevice "main_sum.cpp" 0 [1, 2, 3] 3 6 3 "sum_tree").1
      (by decide),
   (exec_kernel_protocol (corruptedDevice 2 "") "main_sum.cpp" 0 [1, 2, 3] 3 6 4 "sum_tree").2
      2 (by decide) (by decide) (by decide)⟩

/-! ## C9: no state leaks between trials -/

theorem first_mismatch (v : Nat → Nat) (r K : Nat) :
    (∀ t, t < K → v t = r) ∨ ∃ j, j < K ∧ (∀ t, t < j → v t = r) ∧ v j ≠ r := by
  by_cases h : ∀ t, t < K → v t = r
  · exact Or.inl h
  · right
    have h' : ∃ t, t < K ∧ v t ≠ r := by
      by_contra hc
      exact h fun t ht => by
        by_contra hne
        exact hc ⟨t, ht, hne⟩
    classical
    refine ⟨Nat.find h', (Nat.find_spec h').1, fun t ht => ?_, (Nat.find_spec h').2⟩
    by_contra hne
    exact Nat.find_min h' ht ⟨lt_trans ht (Nat.find_spec h').1, hne⟩

theorem resetBefore_of_not_exec (x y : Event) (h : y.isExec = false) : ResetBefore x y := by
  intro hy
  rw [h] at hy
  exact absurd hy (by decide)

theorem chain_append_of_head {l₁ l₂ : List Event} (h₁ : l₁.Chain' ResetBefore)
    (h₂ : l₂.Chain' ResetBefore) (hh : ∀ y ∈ l₂.head?, y.isExec = false) :
    (l₁ ++ l₂).Chain' ResetBefore :=
  List.Chain'.append h₁ h₂ fun _ _ y hy => resetBefore_of_not_exec _ y (hh y hy)

theorem chain_kernelOkEvents (name : String) (as_gpu : List Nat) (n r : Nat) :
    (kernelOkEvents name as_gpu n r).Chain' ResetBefore := by
  simp [kernelOkEvents, ResetBefore, Event.isExec]

theorem chain_kernelFailEvents (file name : String) (as_gpu : List Nat) (n r v : Nat) :
    (kernelFailEvents file name as_gpu n r v).Chain' ResetBefore := by
  simp [kernelFailEvents, ResetBefore, Event.isExec]

theorem chain_trials (name : String) (as_gpu : List Nat) (n r : Nat) (l : List Nat) :
    (l.flatMap fun _ => kernelOkEvents name as_gpu n r).Chain' ResetBefore
      ∧ ∀ y ∈ (l.flatMap fun _ => kernelOkEvents name as_gpu n r).head?, y.isExec = false := by
  induction l with
  | nil => simp
  | cons a l ih =>
    rw [List.flatMap_cons]
    refine ⟨chain_append_of_head (chain_kernelOkEvents name as_gpu n r) ih.1 ih.2, ?_⟩
    simp [kernelOkEvents, Event.isExec]

theorem readBacks_append (l₁ l₂ : List Event) :
    readBacks (l₁ ++ l₂) = readBacks l₁ ++ readBacks l₂ := by
  induction l₁ with
  | nil => rfl
  | cons e l ih => cases e <;> simp [readBacks, ih]

theorem readBacks_trials (name : String) (as_gpu : List Nat) (n r : Nat) (l : List Nat) :
    ∀ v ∈ readBacks (l.flatMap fun _ => kernelOkEvents name as_gpu n r), v = r := by
  induction l with
  | nil => simp [readBacks]
  | cons a l ih =>
    rw [List.flatMap_cons, readBacks_append]
    intro v hv
    rcases List.mem_append.mp hv with h | h
    · simpa [kernelOkEvents, readBacks] using h
    · exact ih v h

/-- C9. In every trial of `exec_kernel` the event directly before a kernel execution is the
write of `0` to the accumulator buffer, and the kernel starts on an accumulator holding `0` and
on the uploaded input, whatever earlier trials read back. The input buffer is written exactly
once, before the first trial, with the first `n` elements of the workload. Consequently a
kernel whose result is a function `k` of the input buffer, the initial accumulator and `n`
alone yields the same read-back value `k (first n elements) 0 n` in every trial. -/
theorem exec_kernel_no_state_leak (device : Device) (file : String) (junk : Nat)
    (as : List Nat) (n reference_sum : Nat) (K : Nat) (name : String) (hn : n ≤ as.length) :
    (exec_kernel device file junk as n reference_sum (K : Int) name).1.Chain' ResetBefore
      ∧ (∀ e ∈ (exec_kernel device file junk as n reference_sum (K : Int) name).1,
          e.isExec = true →
            e = Event.exec name workGroupSize (globalWorkSize n) (as.take n) 0 n)
      ∧ (∃ rest, (exec_kernel device file junk as n reference_sum (K : Int) name).1
            = Event.resizeInput n :: Event.writeInput (as.take n) :: rest
          ∧ rest.countP Event.isWriteInput = 0
          ∧ rest.countP Event.isExec
            = (exec_kernel device file junk as n reference_sum (K : Int) name).1.countP
                Event.isExec)
      ∧ (as.take n).length = n
      ∧ (∀ i, i < n → (as.take n)[i]? = as[i]?)
      ∧ (∀ k : List Nat → Nat → Nat → Nat,
          (∀ iter w g input acc m, device name iter w g input acc m = k input acc m) →
          ∀ v ∈ readBacks (exec_kernel device file junk as n reference_sum (K : Int) name).1,
            v = k (as.take n) 0 n) := by
  have hlen : (as.take n).length = n := by simp [hn]
  have htake : ∀ i, i < n → (as.take n)[i]? = as[i]? := fun i hi => by
    rw [List.getElem?_take_of_lt hi]
  rcases first_mismatch
      (fun t => device name t workGroupSize (globalWorkSize n) (as.take n) 0 n)
      reference_sum K with h | ⟨j, hj, hok, hfail⟩
  · rw [exec_kernel_all_ok device file junk as n reference_sum K name h]
    have hc := chain_trials name (as.take n) n reference_sum (List.range' 0 K)
    refine ⟨?_, ?_, ⟨[Event.resizeAcc, Event.compile name]
      ++ (List.range' 0 K).flatMap (fun _ => kernelOkEvents name (as.take n) n reference_sum)
      ++ [Event.report (.gpu name) K], by simp, ?_, ?_⟩, hlen, htake, ?_⟩
    · rw [List.append_assoc]
      refine chain_append_of_head (by simp [ResetBefore, Event.isExec]) ?_ ?_
      · exact chain_append_of_head hc.1 (by simp) (by simp [Event.isExec])
      · intro y hy
        cases hl : (List.range' 0 K).flatMap
            (fun _ => kernelOkEvents name (as.take n) n reference_sum) with
        | nil => rw [hl] at hy; simp at hy; subst hy; rfl
        | cons z zs =>
          rw [hl] at hy
          simp at hy
          subst hy
          exact hc.2 _ (by rw [hl]; simp)
    · intro e he hex
      simp only [List.mem_append, List.mem_flatMap, List.mem_cons, List.mem_singleton,
        List.not_mem_nil, or_false] at he
      rcases he with (he | ⟨_, _, he⟩) | he
      · rcases he with rfl | rfl | rfl | rfl <;> simp [Event.isExec] at hex
      · simp only [kernelOkEvents, List.mem_cons, List.mem_singleton, List.not_mem_nil,
          or_false] at he
        rcases he with rfl | rfl | rfl | rfl <;> first | rfl | simp [Event.isExec] at hex
      · subst he; simp [Event.isExec] at hex
    · simp only [List.cons_append, List.nil_append, List.countP_cons, List.countP_append,
        List.countP_nil]
      rw [countP_flatMap_const Event.isWriteInput
        (fun _ => kernelOkEvents name (as.take n) n reference_sum) _ 0 (fun _ _ => rfl)]
      simp [Event.isWriteInput]
    · simp only [List.cons_append, List.countP_cons]
      simp [Event.isExec]
    · intro k hk v hv
      simp only [readBacks_append, List.mem_append] at hv
      rcases hv with (hv | hv) | hv
      · simp [readBacks] at hv
      · rw [readBacks_trials name (as.take n) n reference_sum _ v hv, ← hk 0 workGroupSize
          (globalWorkSize n), ← h 0 (by
            rcases K with _ | K
            · simp [readBacks] at hv
            · omega)]
      · simp [readBacks] at hv
  · rw [exec_kernel_fail_at device file junk as n reference_sum K name j hj hok hfail]
    have hc := chain_trials name (as.take n) n reference_sum (List.range' 0 j)
    refine ⟨?_, ?_, ⟨[Event.resizeAcc, Event.compile name]
      ++ ((List.range' 0 j).flatMap (fun _ => kernelOkEvents name (as.take n) n reference_sum)
        ++ kernelFailEvents file name (as.take n) n reference_sum
            (device name j workGroupSize (globalWorkSize n) (as.take n) 0 n)),
      by simp, ?_, ?_⟩, hlen, htake, ?_⟩
    · refine chain_append_of_head (by simp [ResetBefore, Event.isExec]) ?_ ?_
      · exact chain_append_of_head hc.1 (chain_kernelFailEvents _ _ _ _ _ _)
          (by simp [kernelFailEvents, Event.isExec])
      · intro y hy
        cases hl : (List.range' 0 j).flatMap
            (fun _ => kernelOkEvents name (as.take n) n reference_sum) with
        | nil => rw [hl] at hy; simp [kernelFailEvents] at hy; subst hy; rfl
        | cons z zs =>
          rw [hl] at hy
          simp at hy
          subst hy
          exact hc.2 _ (by rw [hl]; simp)
    · intro e he hex
      simp only [List.mem_append, List.mem_flatMap, List.mem_cons, List.mem_singleton,
        List.not_mem_nil, or_false] at he
      rcases he with he | ⟨_, _, he⟩ | he
      · rcases he with rfl | rfl | rfl | rfl <;> simp [Event.isExec] at hex
      · simp only [kernelOkEvents, List.mem_cons, List.mem_singleton, List.not_mem_nil,
          or_false] at he
        rcases he with rfl | rfl | rfl | rfl <;> first | rfl | simp [Event.isExec] at hex
      · simp only [kernelFailEvents, List.mem_cons, List.mem_singleton, List.not_mem_nil,
          or_false] at he
        rcases he with rfl | rfl | rfl | rfl <;> first | rfl | simp [Event.isExec] at hex
    · simp only [List.cons_append, List.nil_append, List.countP_cons, List.countP_append,
        List.countP_nil]
      rw [countP_flatMap_const Event.isWriteInput
        (fun _ => kernelOkEvents name (as.take n) n reference_sum) _ 0 (fun _ _ => rfl)]
      simp [Event.isWriteInput, kernelFailEvents]
    · simp only [List.cons_append, List.countP_cons]
      simp [Event.isExec]
    · intro k hk v hv
      simp only [readBacks_append, List.mem_append] at hv
      rcases hv with hv | hv | hv
      · simp [readBacks] at hv
      · rw [readBacks_trials name (as.take n) n reference_sum _ v hv, ← hk 0 workGroupSize
          (globalWorkSize n), ← hok 0 (by
            rcases j with _ | j
            · simp [readBacks] at hv
            · omega)]
      · simp only [kernelFailEvents, readBacks, List.mem_singleton] at hv
        rw [hv, hk]

/-- Witness of C9: three trials of `sum_cycle` on the workload `[1, 2, 3]`, the accumulator
buffer holding `7` before its first write. -/
theorem exec_kernel_no_state_leak_witness :
    3 ≤ ([1, 2, 3] : List Nat).length
      ∧ (exec_kernel exactDevice "main_sum.cpp" 7 [1, 2, 3] 3 6 ((3 : Nat) : Int)
          "sum_cycle").1.Chain' ResetBefore
      ∧ ∀ v ∈ readBacks (exec_kernel exactDevice "main_sum.cpp" 7 [1, 2, 3] 3 6 ((3 : Nat) : Int)
          "sum_cycle").1, v = 6 :=
  ⟨by decide,
   (exec_kernel_no_state_leak exactDevice "main_sum.cpp" 7 [1, 2, 3] 3 6 3 "sum_cycle"
      (by decide)).1,
   (exec_kernel_no_state_leak exactDevice "main_sum.cpp" 7 [1, 2, 3] 3 6 3 "sum_cycle"
      (by decide)).2.2.2.2.2 (fun input acc _ => wadd acc (input.sum % 2 ^ 32))
      (fun _ _ _ _ _ _ => rfl)⟩

/-! ## The host blocks -/

theorem cpuBody_ok (file : String) (as : List Nat) (n reference_sum iter laps : Nat)
    (h : seqSum as n = reference_sum) :
    cpuBody file as n reference_sum iter laps
      = ([Event.hostSum .cpu iter reference_sum, Event.lap .cpu], .ok (laps + 1)) := by
  simp [cpuBody, andThen, h, raiseFail]

theorem cpuBody_fail (file : String) (as : List Nat) (n reference_sum iter laps : Nat)
    (h : seqSum as n ≠ reference_sum) :
    cpuBody file as n reference_sum iter laps
      = ([Event.hostSum .cpu iter (seqSum as n),
          Event.cerr ("CPU result should be consistent!" ++ " But " ++ toString reference_sum
            ++ " != " ++ toString (seqSum as n) ++ ", " ++ file ++ ":" ++ toString (77 : Int)
            ++ "\n")],
         .error "CPU result should be consistent!") := by
  have h' : reference_sum ≠ seqSum as n := fun e => h e.symm
  simp only [cpuBody, andThen, raiseFail_of_ne _ _ _ _ _ h']
  rfl

theorem ompBody_ok (omp : Nat → List (List Nat)) (file : String) (as : List Nat)
    (reference_sum iter laps : Nat) (h : ompSum as (omp iter) = reference_sum) :
    ompBody omp file as reference_sum iter laps
      = ([Event.hostSum .cpuOmp iter reference_sum, Event.lap .cpuOmp], .ok (laps + 1)) := by
  simp [ompBody, andThen, h, raiseFail]

theorem ompBody_fail (omp : Nat → List (List Nat)) (file : String) (as : List Nat)
    (reference_sum iter laps : Nat) (h : ompSum as (omp iter) ≠ reference_sum) :
    ompBody omp file as reference_sum iter laps
      = ([Event.hostSum .cpuOmp iter (ompSum as (omp iter)),
          Event.cerr ("CPU OpenMP result should be consistent!" ++ " But "
            ++ toString reference_sum ++ " != " ++ toString (ompSum as (omp iter)) ++ ", "
            ++ file ++ ":" ++ toString (92 : Int) ++ "\n")],
         .error "CPU OpenMP result should be consistent!") := by
  have h' : reference_sum ≠ ompSum as (omp iter) := fun e => h e.symm
  simp only [ompBody, andThen, raiseFail_of_ne _ _ _ _ _ h']
  rfl

theorem cpuBlock_all_ok (file : String) (as : List Nat) (n reference_sum K : Nat)
    (h : seqSum as n = reference_sum) :
    cpuBlock file as n reference_sum (K : Int)
      = ((List.range' 0 K).flatMap
            (fun t => [Event.hostSum .cpu t reference_sum, Event.lap .cpu])
          ++ [Event.report .cpu K], .ok ()) := by
  have hloop := forLoop_all_ok (cpuBody file as n reference_sum)
    (fun t => [Event.hostSum .cpu t reference_sum, Event.lap .cpu]) (fun l => l + 1) K 0 0
    (fun t _ s => cpuBody_ok file as n reference_sum (0 + t) s h)
  unfold cpuBlock
  simp only [Int.toNat_ofNat, andThen_ok, hloop, iterate_succ_laps, Nat.zero_add]

theorem ompBlock_all_ok (omp : Nat → List (List Nat)) (file : String) (as : List Nat)
    (reference_sum K : Nat) (h : ∀ t, t < K → ompSum as (omp t) = reference_sum) :
    ompBlock omp file as reference_sum (K : Int)
      = ((List.range' 0 K).flatMap
            (fun t => [Event.hostSum .cpuOmp t reference_sum, Event.lap .cpuOmp])
          ++ [Event.report .cpuOmp K], .ok ()) := by
  have hloop := forLoop_all_ok (ompBody omp file as reference_sum)
    (fun t => [Event.hostSum .cpuOmp t reference_sum, Event.lap .cpuOmp]) (fun l => l + 1) K 0 0
    (fun t ht s => by
      rw [Nat.zero_add]
      exact ompBody_ok omp file as reference_sum t s (h t ht))
  unfold ompBlock
  simp only [Int.toNat_ofNat, andThen_ok, hloop, iterate_succ_laps, Nat.zero_add]

theorem ompBlock_fail_at (omp : Nat → List (List Nat)) (file : String) (as : List Nat)
    (reference_sum K j : Nat) (hj : j < K)
    (hok : ∀ t, t < j → ompSum as (omp t) = reference_sum)
    (hfail : ompSum as (omp j) ≠ reference_sum) :
    ompBlock omp file as reference_sum (K : Int)
      = ((List.range' 0 j).flatMap
            (fun t => [Event.hostSum .cpuOmp t reference_sum, Event.lap .cpuOmp])
          ++ [Event.hostSum .cpuOmp j (ompSum as (omp j)),
              Event.cerr ("CPU OpenMP result should be consistent!" ++ " But "
                ++ toString reference_sum ++ " != " ++ toString (ompSum as (omp j)) ++ ", "
                ++ file ++ ":" ++ toString (92 : Int) ++ "\n")],
         .error "CPU OpenMP result should be consistent!") := by
  have hloop := forLoop_fail_at (ompBody omp file as reference_sum)
    (fun t => [Event.hostSum .cpuOmp t reference_sum, Event.lap .cpuOmp]) _ _ (fun l => l + 1)
    K 0 j 0 hj
    (fun t ht s => by
      rw [Nat.zero_add]
      exact ompBody_ok omp file as reference_sum t s (hok t ht))
    (fun s => by
      rw [Nat.zero_add]
      exact ompBody_fail omp file as reference_sum j s hfail)
  unfold ompBlock
  simp only [Int.toNat_ofNat, hloop, andThen_error]

/-! ## C2: the host strategies agree with the reference sum -/

theorem generate_reference_eq_seqSum (next : Nat → Nat → Nat → Int) (n : Nat) :
    (generate next n).1.length = n ∧ seqSum (generate next n).1 n = (generate next n).2 := by
  rw [generate_eq]
  have hlen : ((List.range n).map (fun i => toUInt (next i 0 (UINT_MAX / n)))).length = n := by
    simp
  refine ⟨hlen, ?_⟩
  have h := seqSum_eq ((List.range n).map (fun i => toUInt (next i 0 (UINT_MAX / n))))
  rw [hlen] at h
  simp only
  rw [h, foldl_wadd_zero]

theorem ompPartial_eq (as : List Nat) (chunk : List Nat) :
    ompPartial as chunk = (chunk.map fun i => as.getD i 0).sum % 2 ^ 32 :=
  foldl_wadd_zero _ chunk

theorem ompCombine_eq (partials : List Nat) : ompCombine partials = partials.sum % 2 ^ 32 := by
  have h := foldl_wadd_zero (fun x : Nat => x) partials
  simpa [ompCombine, wadd] using h

theorem sum_map_sum_flatten (f : Nat → Nat) (chunks : List (List Nat)) :
    (chunks.map fun c => (c.map f).sum).sum = (chunks.flatten.map f).sum := by
  induction chunks with
  | nil => rfl
  | cons c cs ih => simp [ih]

theorem omp_any_schedule (as : List Nat) (chunks : List (List Nat)) (partials : List Nat)
    (hcover : chunks.flatten.Perm (List.range as.length))
    (horder : partials.Perm (chunks.map (ompPartial as))) :
    ompCombine partials = seqSum as as.length := by
  rw [ompCombine_eq, horder.sum_eq, seqSum_eq]
  have h₁ : chunks.map (ompPartial as)
      = chunks.map fun c => (c.map fun i => as.getD i 0).sum % 2 ^ 32 :=
    List.map_congr_left fun c _ => ompPartial_eq as c
  rw [h₁, sum_map_mod (fun c : List Nat => (c.map fun i => as.getD i 0).sum) chunks,
    sum_map_sum_flatten, (hcover.map _).sum_eq, map_getD_range]

/-- C2. For every workload the generation loop of `main` produces and every trial: the
sequential left-to-right 32-bit sum equals `reference_sum`; the multi-threaded sum, for any
split of the index range `[0, n)` into disjoint chunks covering it, each summed into a private
32-bit partial starting at `0`, and any order of adding the partials, equals `reference_sum`
too; hence neither the sequential block nor the OpenMP block writes to `std::cerr` or raises,
for any number `K` of trials. -/
theorem host_strategies_consistent (next : Nat → Nat → Nat → Int)
    (omp : Nat → List (List Nat)) (file : String) (n K : Nat)
    (hsched : ∀ t, t < K → (omp t).flatten.Perm (List.range n)) :
    seqSum (generate next n).1 n = (generate next n).2
      ∧ (∀ (chunks : List (List Nat)) (partials : List Nat), chunks.flatten.Perm (List.range n) →
          partials.Perm (chunks.map (ompPartial (generate next n).1)) →
          ompCombine partials = (generate next n).2)
      ∧ (cpuBlock file (generate next n).1 n (generate next n).2 (K : Int)).2 = .ok ()
      ∧ (cpuBlock file (generate next n).1 n (generate next n).2 (K : Int)).1.countP
          Event.isCerr = 0
      ∧ (ompBlock omp file (generate next n).1 (generate next n).2 (K : Int)).2 = .ok ()
      ∧ (ompBlock omp file (generate next n).1 (generate next n).2 (K : Int)).1.countP
          Event.isCerr = 0 := by
  obtain ⟨hlen, hseq⟩ := generate_reference_eq_seqSum next n
  have homp : ∀ (chunks : List (List Nat)) (partials : List Nat), chunks.flatten.Perm (List.range n) →
      partials.Perm (chunks.map (ompPartial (generate next n).1)) →
      ompCombine partials = (generate next n).2 := by
    intro chunks partials hc hp
    rw [← hseq]
    have h := omp_any_schedule (generate next n).1 chunks partials (by rw [hlen]; exact hc) hp
    rw [hlen] at h
    exact h
  have hsum : ∀ t, t < K → ompSum (generate next n).1 (omp t) = (generate next n).2 :=
    fun t ht => homp (omp t) _ (hsched t ht) (List.Perm.refl _)
  refine ⟨hseq, homp, ?_, ?_, ?_, ?_⟩
  · rw [cpuBlock_all_ok file _ n _ K hseq]
  · rw [cpuBlock_all_ok file _ n _ K hseq]
    simp only [List.countP_append]
    rw [countP_flatMap_const Event.isCerr
      (fun t => [Event.hostSum .cpu t (generate next n).2, Event.lap .cpu]) _ 0
      (fun _ _ => rfl)]
    simp [Event.isCerr]
  · rw [ompBlock_all_ok omp file _ _ K hsum]
  · rw [ompBlock_all_ok omp file _ _ K hsum]
    simp only [List.countP_append]
    rw [countP_flatMap_const Event.isCerr
      (fun t => [Event.hostSum .cpuOmp t (generate next n).2, Event.lap .cpuOmp]) _ 0
      (fun _ _ => rfl)]
    simp [Event.isCerr]

/-- Witness of C2: a workload of three elements whose sum wraps modulo `2 ^ 32`, two trials,
the OpenMP runtime giving index `2` to one thread and indices `0, 1` to another. -/
theorem host_strategies_consistent_witness :
    seqSum [4000000000, 500000000, 7] 3 = 205032711
      ∧ ompCombine [ompPartial [4000000000, 500000000, 7] [2],
          ompPartial [4000000000, 500000000, 7] [0, 1]] = 205032711
      ∧ (ompBlock (fun _ => [[2], [0, 1]]) "main_sum.cpp"
          (generate (fun i _ _ => (([4000000000, 500000000, 7] : List Nat).getD i 0 : Nat)) 3).1
          (generate (fun i _ _ => (([4000000000, 500000000, 7] : List Nat).getD i 0 : Nat)) 3).2
          ((2 : Nat) : Int)).2 = .ok () := by
  have h := host_strategies_consistent
    (fun i _ _ => (([4000000000, 500000000, 7] : List Nat).getD i 0 : Nat))
    (fun _ => [[2], [0, 1]]) "main_sum.cpp" 3 2
    (fun _ _ => (by decide : ([[2], [0, 1]] : List (List Nat)).flatten.Perm (List.range 3)))
  exact ⟨by decide, by decide, h.2.2.2.2.1⟩

/-! ## Blocks run one after another -/

theorem filterMap_flatMap_single {α β : Type} (g : Event → Option β) (f : α → List Event)
    (l : List α) (c : β) (h : ∀ x ∈ l, (f x).filterMap g = [c]) :
    (l.flatMap f).filterMap g = List.replicate l.length c := by
  induction l with
  | nil => rfl
  | cons a l ih =>
    rw [List.flatMap_cons, List.filterMap_append, h a (List.mem_cons_self _ _),
      ih fun x hx => h x (List.mem_cons_of_mem _ hx)]
    rfl

theorem filterMap_flatMap_none {α β : Type} (g : Event → Option β) (f : α → List Event)
    (l : List α) (h : ∀ x ∈ l, (f x).filterMap g = []) :
    (l.flatMap f).filterMap g = [] := by
  induction l with
  | nil => rfl
  | cons a l ih =>
    rw [List.flatMap_cons, List.filterMap_append, h a (List.mem_cons_self _ _),
      ih fun x hx => h x (List.mem_cons_of_mem _ hx)]
    rfl

theorem andThen_skip (b : Run Unit) : andThen b (fun _ => (([], .ok ()) : Run Unit)) = b := by
  rcases b with ⟨tr, r⟩
  cases r with
  | error e => rfl
  | ok u => simp [andThen]

theorem mainWith_eq_runAll (next : Nat → Nat → Nat → Int) (omp : Nat → List (List Nat))
    (device : Device) (file : String) (junk n : Nat) (benchmarkingIters : Int) :
    mainWith next omp device file junk n benchmarkingIters
      = runAll (strategies.map (blockOf next omp device file junk n benchmarkingIters)) := by
  simp only [mainWith, strategies, List.map_cons, List.map_nil, runAll, blockOf, andThen_skip]

theorem runAll_cons_ok (b : Run Unit) (bs : List (Run Unit)) (h : b.2 = .ok ()) :
    runAll (b :: bs) = (b.1 ++ (runAll bs).1, (runAll bs).2) := by
  simp only [runAll, andThen, h]

theorem runAll_cons_error (b : Run Unit) (bs : List (Run Unit)) (e : String)
    (h : b.2 = .error e) : runAll (b :: bs) = (b.1, .error e) := by
  simp only [runAll, andThen, h]

theorem runAll_pass (K : Nat) (blk : Strategy → Run Unit) (ss : List Strategy)
    (h : ∀ s ∈ ss, BlockPass K s (blk s)) :
    (runAll (ss.map blk)).2 = .ok ()
      ∧ trialSeq (runAll (ss.map blk)).1 = ss.flatMap (fun s => List.replicate K s)
      ∧ reportSeq (runAll (ss.map blk)).1 = ss
      ∧ cerrTexts (runAll (ss.map blk)).1 = [] := by
  induction ss with
  | nil => exact ⟨rfl, rfl, rfl, rfl⟩
  | cons s ss ih =>
    obtain ⟨h₁, h₂, h₃, h₄⟩ := h s (List.mem_cons_self _ _)
    obtain ⟨i₁, i₂, i₃, i₄⟩ := ih fun x hx => h x (List.mem_cons_of_mem _ hx)
    rw [List.map_cons, runAll_cons_ok _ _ h₁]
    refine ⟨i₁, ?_, ?_, ?_⟩
    · unfold trialSeq at h₂ i₂ ⊢
      rw [List.filterMap_append, h₂, i₂, List.flatMap_cons]
    · unfold reportSeq at h₃ i₃ ⊢
      rw [List.filterMap_append, h₃, i₃]
      rfl
    · unfold cerrTexts at h₄ i₄ ⊢
      rw [List.filterMap_append, h₄, i₄]
      rfl

theorem runAll_fail (K j : Nat) (d : String) (blk : Strategy → Run Unit)
    (pre : List Strategy) (s : Strategy) (post : List Strategy)
    (hpre : ∀ x ∈ pre, BlockPass K x (blk x)) (hs : BlockFail j s d (blk s)) :
    (runAll ((pre ++ s :: post).map blk)).2 = .error (checkMessage s)
      ∧ trialSeq (runAll ((pre ++ s :: post).map blk)).1
          = pre.flatMap (fun x => List.replicate K x) ++ List.replicate (j + 1) s
      ∧ reportSeq (runAll ((pre ++ s :: post).map blk)).1 = pre
      ∧ cerrTexts (runAll ((pre ++ s :: post).map blk)).1 = [d] := by
  induction pre with
  | nil =>
    obtain ⟨h₁, h₂, h₃, h₄⟩ := hs
    rw [List.nil_append, List.map_cons, runAll_cons_error _ _ _ h₁]
    exact ⟨rfl, by simpa using h₂, h₃, h₄⟩
  | cons x pre ih =>
    obtain ⟨h₁, h₂, h₃, h₄⟩ := hpre x (List.mem_cons_self _ _)
    obtain ⟨i₁, i₂, i₃, i₄⟩ := ih fun y hy => hpre y (List.mem_cons_of_mem _ hy)
    rw [List.cons_append, List.map_cons, runAll_cons_ok _ _ h₁]
    refine ⟨i₁, ?_, ?_, ?_⟩
    · unfold trialSeq at h₂ i₂ ⊢
      rw [List.filterMap_append, h₂, i₂, List.flatMap_cons, List.append_assoc]
    · unfold reportSeq at h₃ i₃ ⊢
      rw [List.filterMap_append, h₃, i₃]
      rfl
    · unfold cerrTexts at h₄ i₄ ⊢
      rw [List.filterMap_append, h₄, i₄]
      rfl

/-! ## The blocks of `main` -/

theorem blockOf_pass (next : Nat → Nat → Nat → Int) (omp : Nat → List (List Nat))
    (device : Device) (file : String) (junk n K : Nat) (s : Strategy)
    (h : ∀ t, t < K → strategyValue next omp device n s t = (generate next n).2) :
    BlockPass K s (blockOf next omp device file junk n (K : Int) s) := by
  cases s with
  | cpu =>
    unfold blockOf
    simp only
    rw [cpuBlock_all_ok file _ n _ K (generate_reference_eq_seqSum next n).2]
    refine ⟨rfl, ?_, ?_, ?_⟩
    · unfold trialSeq
      rw [List.filterMap_append, filterMap_flatMap_single trialOf _ _ Strategy.cpu, List.length_range']
      · simp [trialOf]
      · intro _ _; rfl
    · unfold reportSeq
      rw [List.filterMap_append, filterMap_flatMap_none reportOf _ _]
      · rfl
      · intro _ _; rfl
    · unfold cerrTexts
      rw [List.filterMap_append, filterMap_flatMap_none cerrOf _ _]
      · rfl
      · intro _ _; rfl
  | cpuOmp =>
    unfold blockOf
    simp only
    rw [ompBlock_all_ok omp file _ _ K h]
    refine ⟨rfl, ?_, ?_, ?_⟩
    · unfold trialSeq
      rw [List.filterMap_append, filterMap_flatMap_single trialOf _ _ Strategy.cpuOmp, List.length_range']
      · simp [trialOf]
      · intro _ _; rfl
    · unfold reportSeq
      rw [List.filterMap_append, filterMap_flatMap_none reportOf _ _]
      · rfl
      · intro _ _; rfl
    · unfold cerrTexts
      rw [List.filterMap_append, filterMap_flatMap_none cerrOf _ _]
      · rfl
      · intro _ _; rfl
  | gpu name =>
    unfold blockOf
    simp only
    rw [exec_kernel_all_ok device file junk _ n _ K name h]
    refine ⟨rfl, ?_, ?_, ?_⟩
    · unfold trialSeq
      rw [List.filterMap_append, List.filterMap_append,
        filterMap_flatMap_single trialOf _ _ (Strategy.gpu name),
        List.length_range']
      · simp [trialOf]
      · intro _ _; rfl
    · unfold reportSeq
      rw [List.filterMap_append, List.filterMap_append,
        filterMap_flatMap_none reportOf _ _]
      · rfl
      · intro _ _; rfl
    · unfold cerrTexts
      rw [List.filterMap_append, List.filterMap_append,
        filterMap_flatMap_none cerrOf _ _]
      · rfl
      · intro _ _; rfl

theorem blockOf_fail (next : Nat → Nat → Nat → Int) (omp : Nat → List (List Nat))
    (device : Device) (file : String) (junk n K : Nat) (s : Strategy) (j : Nat) (hj : j < K)
    (hok : ∀ t, t < j → strategyValue next omp device n s t = (generate next n).2)
    (hfail : strategyValue next omp device n s j ≠ (generate next n).2) :
    BlockFail j s
      (diagnostic file s (generate next n).2 (strategyValue next omp device n s j))
      (blockOf next omp device file junk n (K : Int) s) := by
  cases s with
  | cpu => exact absurd (generate_reference_eq_seqSum next n).2 hfail
  | cpuOmp =>
    unfold blockOf
    simp only
    rw [ompBlock_fail_at omp file _ _ K j hj hok hfail]
    refine ⟨rfl, ?_, ?_, ?_⟩
    · unfold trialSeq
      rw [List.filterMap_append, filterMap_flatMap_single trialOf _ _ Strategy.cpuOmp, List.length_range', List.replicate_succ']
      · rfl
      · intro _ _; rfl
    · unfold reportSeq
      rw [List.filterMap_append, filterMap_flatMap_none reportOf _ _]
      · rfl
      · intro _ _; rfl
    · unfold cerrTexts
      rw [List.filterMap_append, filterMap_flatMap_none cerrOf _ _]
      · rfl
      · intro _ _; rfl
  | gpu name =>
    unfold blockOf
    simp only
    rw [exec_kernel_fail_at device file junk _ n _ K name j hj hok hfail]
    refine ⟨rfl, ?_, ?_, ?_⟩
    · unfold trialSeq
      rw [List.filterMap_append, List.filterMap_append,
        filterMap_flatMap_single trialOf _ _ (Strategy.gpu name),
        List.length_range', List.replicate_succ']
      · rfl
      · intro _ _; rfl
    · unfold reportSeq
      rw [List.filterMap_append, List.filterMap_append,
        filterMap_flatMap_none reportOf _ _]
      · rfl
      · intro _ _; rfl
    · unfold cerrTexts
      rw [List.filterMap_append, List.filterMap_append,
        filterMap_flatMap_none cerrOf _ _]
      · rfl
      · intro _ _; rfl

/-! ## C4: a failed check ends the program -/

theorem first_failing {α : Type} (P : α → Prop) (l : List α) :
    (∀ s ∈ l, P s) ∨ ∃ pre s post, l = pre ++ s :: post ∧ (∀ x ∈ pre, P x) ∧ ¬ P s := by
  induction l with
  | nil => exact Or.inl fun _ h => absurd h (List.not_mem_nil _)
  | cons a l ih =>
    by_cases ha : P a
    · rcases ih with h | ⟨pre, s, post, hl, hpre, hs⟩
      · left
        intro s hs
        rcases List.mem_cons.mp hs with rfl | h'
        · exact ha
        · exact h s h'
      · right
        refine ⟨a :: pre, s, post, by rw [hl]; rfl, ?_, hs⟩
        intro x hx
        rcases List.mem_cons.mp hx with rfl | h'
        · exact ha
        · exact hpre x h'
    · exact Or.inr ⟨[], a, l, rfl, fun _ h => absurd h (List.not_mem_nil _), ha⟩

theorem split_at_index {α : Type} (l : List α) (p : Nat) (s : α) (h : l[p]? = some s) :
    l = l.take p ++ s :: l.drop (p + 1) := by
  induction l generalizing p with
  | nil => simp at h
  | cons a l ih =>
    cases p with
    | zero =>
      simp at h
      subst h
      rfl
    | succ p =>
      simp at h
      have := ih p h
      simp only [List.take_succ_cons, List.drop_succ_cons, List.cons_append]
      rw [← this]

theorem drop_at_index {α : Type} (l : List α) (p : Nat) (s : α) (h : l[p]? = some s) :
    l.drop p = s :: l.drop (p + 1) := by
  induction l generalizing p with
  | nil => simp at h
  | cons a l ih =>
    cases p with
    | zero =>
      simp at h
      subst h
      rfl
    | succ p =>
      simp at h
      simpa using ih p h

theorem strategies_nodup : strategies.Nodup := by decide

theorem mem_flatMap_replicate (K : Nat) (l : List Strategy) (x : Strategy)
    (h : x ∈ l.flatMap fun s => List.replicate K s) : x ∈ l := by
  rw [List.mem_flatMap] at h
  obtain ⟨s, hs, hx⟩ := h
  rw [(List.mem_replicate.mp hx).2]
  exact hs

/-- The run of `mainWith` when trial `j` of the strategy `s` at position `p` is the first
trial of the program whose sum differs from the reference sum. -/
theorem mainWith_first_failure (next : Nat → Nat → Nat → Int) (omp : Nat → List (List Nat))
    (device : Device) (file : String) (junk n K : Nat) (p : Nat) (s : Strategy) (j : Nat)
    (hs : strategies[p]? = some s) (hj : j < K)
    (hprev : ∀ x ∈ strategies.take p, ∀ t, t < K →
      strategyValue next omp device n x t = (generate next n).2)
    (hok : ∀ t, t < j → strategyValue next omp device n s t = (generate next n).2)
    (hfail : strategyValue next omp device n s j ≠ (generate next n).2) :
    (mainWith next omp device file junk n (K : Int)).2 = .error (checkMessage s)
      ∧ trialSeq (mainWith next omp device file junk n (K : Int)).1
          = (strategies.take p).flatMap (fun x => List.replicate K x) ++ List.replicate (j + 1) s
      ∧ reportSeq (mainWith next omp device file junk n (K : Int)).1 = strategies.take p
      ∧ cerrTexts (mainWith next omp device file junk n (K : Int)).1
          = [diagnostic file s (generate next n).2 (strategyValue next omp device n s j)] := by
  rw [mainWith_eq_runAll]
  have hsplit := split_at_index strategies p s hs
  have h := runAll_fail K j _ (blockOf next omp device file junk n (K : Int))
    (strategies.take p) s (strategies.drop (p + 1))
    (fun x hx => blockOf_pass next omp device file junk n K x (hprev x hx))
    (blockOf_fail next omp device file junk n K s j hj hok hfail)
  rw [← hsplit] at h
  exact h

/-- C4. The strategies run one after another in the fixed order sequential, multi-threaded,
`sum_global_atomic_add`, `sum_cycle`, `sum_cycle_coalesced`, `sum_local_mem_main_thread`,
`sum_tree`. `mainWith`, of which `main` is the instance `n = 100000000`, `benchmarkingIters = 10`,
completes normally exactly when every trial of every strategy matched `reference_sum`, and then each strategy ran its `K` trials and printed its report, in that
order. If trial `j` of the strategy `s` at position `p` is the one whose check raises (the
first mismatch of the program), the program ends with that error after the `K` trials of each
earlier strategy and `j + 1` trials of `s`; only the earlier strategies have printed a report;
no trial of a strategy after position `p` is executed, and no report of `s` or of a later
strategy is printed. -/
theorem main_failure_semantics (next : Nat → Nat → Nat → Int) (omp : Nat → List (List Nat))
    (device : Device) (file : String) (junk n K : Nat) :
    ((mainWith next omp device file junk n (K : Int)).2 = .ok ()
        ↔ ∀ s ∈ strategies, ∀ t, t < K →
            strategyValue next omp device n s t = (generate next n).2)
      ∧ ((mainWith next omp device file junk n (K : Int)).2 = .ok () →
          trialSeq (mainWith next omp device file junk n (K : Int)).1
              = strategies.flatMap (fun s => List.replicate K s)
            ∧ reportSeq (mainWith next omp device file junk n (K : Int)).1 = strategies)
      ∧ (∀ p s j, strategies[p]? = some s → j < K →
          (∀ x ∈ strategies.take p, ∀ t, t < K →
            strategyValue next omp device n x t = (generate next n).2) →
          (∀ t, t < j → strategyValue next omp device n s t = (generate next n).2) →
          strategyValue next omp device n s j ≠ (generate next n).2 →
          (mainWith next omp device file junk n (K : Int)).2 = .error (checkMessage s)
            ∧ trialSeq (mainWith next omp device file junk n (K : Int)).1
                = (strategies.take p).flatMap (fun x => List.replicate K x)
                  ++ List.replicate (j + 1) s
            ∧ reportSeq (mainWith next omp device file junk n (K : Int)).1 = strategies.take p
            ∧ (∀ x ∈ strategies.drop (p + 1),
                x ∉ trialSeq (mainWith next omp device file junk n (K : Int)).1)
            ∧ (∀ x ∈ strategies.drop p,
                x ∉ reportSeq (mainWith next omp device file junk n (K : Int)).1))
      ∧ main next omp device file junk
          = mainWith next omp device file junk 100000000 ((10 : Nat) : Int) := by
  have hiff : (mainWith next omp device file junk n (K : Int)).2 = .ok ()
      ↔ ∀ s ∈ strategies, ∀ t, t < K →
          strategyValue next omp device n s t = (generate next n).2 := by
    constructor
    · intro hok
      rcases first_failing
          (fun s => ∀ t, t < K → strategyValue next omp device n s t = (generate next n).2)
          strategies with h | ⟨pre, s, post, hl, hpre, hs⟩
      · exact h
      · exfalso
        rcases first_mismatch (strategyValue next omp device n s) (generate next n).2 K
          with h | ⟨j, hj, hokj, hfail⟩
        · exact hs h
        · have h := runAll_fail K j _ (blockOf next omp device file junk n (K : Int))
            pre s post
            (fun x hx => blockOf_pass next omp device file junk n K x (hpre x hx))
            (blockOf_fail next omp device file junk n K s j hj hokj hfail)
          rw [← hl, ← mainWith_eq_runAll, hok] at h
          exact absurd h.1 (by simp)
    · intro h
      rw [mainWith_eq_runAll]
      exact (runAll_pass K (blockOf next omp device file junk n (K : Int)) strategies
        fun s hs => blockOf_pass next omp device file junk n K s (h s hs)).1
  refine ⟨hiff, ?_, ?_, rfl⟩
  · intro hok
    have h := runAll_pass K (blockOf next omp device file junk n (K : Int)) strategies
      fun s hs => blockOf_pass next omp device file junk n K s (hiff.mp hok s hs)
    rw [← mainWith_eq_runAll] at h
    exact ⟨h.2.1, h.2.2.1⟩
  · intro p s j hs hj hprev hok hfail
    obtain ⟨h₁, h₂, h₃, _⟩ :=
      mainWith_first_failure next omp device file junk n K p s j hs hj hprev hok hfail
    have hsplit := split_at_index strategies p s hs
    have hnd := strategies_nodup
    rw [hsplit] at hnd
    have hdis := List.nodup_append.mp hnd
    have hnd₂ := List.nodup_cons.mp hdis.2.1
    refine ⟨h₁, h₂, h₃, ?_, ?_⟩
    · intro x hx hmem
      rw [h₂] at hmem
      rcases List.mem_append.mp hmem with h | h
      · exact hdis.2.2 (mem_flatMap_replicate K _ x h) (List.mem_cons_of_mem _ hx)
      · rw [(List.mem_replicate.mp h).2] at hx
        exact hnd₂.1 hx
    · intro x hx hmem
      rw [h₃] at hmem
      have hx' : x ∈ s :: strategies.drop (p + 1) := by
        have hd := drop_at_index strategies p s hs
        rw [hd] at hx
        exact hx
      exact hdis.2.2 hmem hx'

/-- Witness of C4: the workload `[1, 2, 3]`, two trials per strategy, on a device whose kernel
`sum_cycle` (position 3) is off by one: the program ends in the first trial of `sum_cycle`. -/
theorem main_failure_semantics_witness :
    (mainWith (fun i _ _ => (([1, 2, 3] : List Nat).getD i 0 : Nat)) (fun _ => [[0], [1, 2]])
        (corruptedDevice 99 "sum_cycle") "main_sum.cpp" 0 3 ((2 : Nat) : Int)).2
        = .error "GPU results should be consistent!"
      ∧ trialSeq (mainWith (fun i _ _ => (([1, 2, 3] : List Nat).getD i 0 : Nat))
          (fun _ => [[0], [1, 2]]) (corruptedDevice 99 "sum_cycle") "main_sum.cpp" 0 3
          ((2 : Nat) : Int)).1
        = [.cpu, .cpu, .cpuOmp, .cpuOmp, .gpu "sum_global_atomic_add",
           .gpu "sum_global_atomic_add", .gpu "sum_cycle"]
      ∧ reportSeq (mainWith (fun i _ _ => (([1, 2, 3] : List Nat).getD i 0 : Nat))
          (fun _ => [[0], [1, 2]]) (corruptedDevice 99 "sum_cycle") "main_sum.cpp" 0 3
          ((2 : Nat) : Int)).1
        = [.cpu, .cpuOmp, .gpu "sum_global_atomic_add"] := by
  have h := (main_failure_semantics (fun i _ _ => (([1, 2, 3] : List Nat).getD i 0 : Nat))
    (fun _ => [[0], [1, 2]]) (corruptedDevice 99 "sum_cycle") "main_sum.cpp" 0 3 2).2.2.1
    3 (.gpu "sum_cycle") 0 rfl (by decide) (by decide) (by decide) (by decide)
  exact ⟨h.1, h.2.1, h.2.2.1⟩

/-! ## C8: what the diagnostic says about the strategy -/

/-- C8 as stated fails: `sum_cycle` and `sum_tree`, two different device strategies, failing
with the same expected value `5` and the same actual value `6`, print the same diagnostic; the
name of the strategy is not in it. -/
theorem gpu_diagnostic_ignores_name :
    "sum_cycle" ≠ "sum_tree"
      ∧ cerrTexts (exec_kernel (corruptedDevice 0 "") "main_sum.cpp" 0 [5] 1 5 1 "sum_cycle").1
        = ["GPU results should be consistent! But 5 != 6, main_sum.cpp:49\n"]
      ∧ cerrTexts (exec_kernel (corruptedDevice 0 "") "main_sum.cpp" 0 [5] 1 5 1 "sum_tree").1
        = ["GPU results should be consistent! But 5 != 6, main_sum.cpp:49\n"] := by
  refine ⟨by decide, by decide, by decide⟩

/-- C8, amended. When trial `j` of the strategy `s` at position `p` is the one whose check
raises, the only text on `std::cerr` is the message of the check, `" But "`, the expected
value, `" != "`, the actual value, `", "`, the file, `":"` and the line of the check. The
message and the line tell the sequential host strategy, the OpenMP host strategy and the
device strategies apart; for a device strategy the text is
`GPU results should be consistent! But <expected> != <actual>, <file>:49` whatever the name of
the kernel, so two device strategies failing with the same expected and actual values print
the same diagnostic. -/
theorem diagnostic_strategy_context (next : Nat → Nat → Nat → Int)
    (omp : Nat → List (List Nat)) (device : Device) (file : String) (junk n K : Nat)
    (p : Nat) (s : Strategy) (j : Nat)
    (hs : strategies[p]? = some s) (hj : j < K)
    (hprev : ∀ x ∈ strategies.take p, ∀ t, t < K →
      strategyValue next omp device n x t = (generate next n).2)
    (hok : ∀ t, t < j → strategyValue next omp device n s t = (generate next n).2)
    (hfail : strategyValue next omp device n s j ≠ (generate next n).2) :
    cerrTexts (mainWith next omp device file junk n (K : Int)).1
        = [checkMessage s ++ " But " ++ toString (generate next n).2 ++ " != "
            ++ toString (strategyValue next omp device n s j) ++ ", " ++ file ++ ":"
            ++ toString (checkLine s) ++ "\n"]
      ∧ (∀ name, s = .gpu name →
          cerrTexts (mainWith next omp device file junk n (K : Int)).1
            = ["GPU results should be consistent!" ++ " But " ++ toString (generate next n).2
                ++ " != " ++ toString (strategyValue next omp device n s j) ++ ", " ++ file
                ++ ":" ++ toString (49 : Int) ++ "\n"])
      ∧ (∀ name name' expected actual,
          diagnostic file (.gpu name) expected actual
            = diagnostic file (.gpu name') expected actual)
      ∧ checkMessage .cpu = "CPU result should be consistent!"
      ∧ checkMessage .cpuOmp = "CPU OpenMP result should be consistent!"
      ∧ (∀ name, checkMessage (.gpu name) = "GPU results should be consistent!")
      ∧ checkLine .cpu = 77 ∧ checkLine .cpuOmp = 92 ∧ (∀ name, checkLine (.gpu name) = 49) := by
  have h := (mainWith_first_failure next omp device file junk n K p s j hs hj hprev hok
    hfail).2.2.2
  refine ⟨h, ?_, fun _ _ _ _ => rfl, rfl, rfl, fun _ => rfl, rfl, rfl, fun _ => rfl⟩
  intro name hname
  rw [h, hname]
  rfl

/-- Witness of C8 (amended): the workload `[1, 2, 3]`, two trials per strategy, on a device
whose kernel `sum_cycle` is off by one. -/
theorem diagnostic_strategy_context_witness :
    cerrTexts (mainWith (fun i _ _ => (([1, 2, 3] : List Nat).getD i 0 : Nat))
        (fun _ => [[0], [1, 2]]) (corruptedDevice 99 "sum_cycle") "main_sum.cpp" 0 3
        ((2 : Nat) : Int)).1
      = ["GPU results should be consistent! But 6 != 7, main_sum.cpp:49\n"] := by
  have h := (diagnostic_strategy_context (fun i _ _ => (([1, 2, 3] : List Nat).getD i 0 : Nat))
    (fun _ => [[0], [1, 2]]) (corruptedDevice 99 "sum_cycle") "main_sum.cpp" 0 3 2
    3 (.gpu "sum_cycle") 0 rfl (by decide) (by decide) (by decide) (by decide)).1
  rw [h]
  decide

/-! ## Sums over a dispatch -/

theorem list_sum_range (f : Nat → Nat) (n : Nat) :
    ((List.range n).map f).sum = ∑ i in Finset.range n, f i := by
  induction n with
  | zero => rfl
  | succ n ih => rw [List.range_succ, List.map_append, List.sum_append, ih,
      Finset.sum_range_succ]; simp

theorem sum_range_mul (F : Nat → Nat) (a b : Nat) :
    ∑ q in Finset.range a, ∑ l in Finset.range b, F (q * b + l)
      = ∑ i in Finset.range (a * b), F i := by
  induction a with
  | zero => simp
  | succ a ih =>
    rw [Finset.sum_range_succ, ih, Nat.succ_mul, Finset.sum_range_add]

theorem sum_range_guard (f : Nat → Nat) (n N : Nat) (h : n ≤ N) :
    ∑ i in Finset.range N, (if i < n then f i else 0) = ∑ i in Finset.range n, f i := by
  obtain ⟨d, rfl⟩ := Nat.exists_eq_add_of_le h
  rw [Finset.sum_range_add]
  have h₁ : ∑ i in Finset.range n, (if i < n then f i else 0) = ∑ i in Finset.range n, f i :=
    Finset.sum_congr rfl fun i hi => by rw [if_pos (Finset.mem_range.mp hi)]
  have h₂ : ∑ x in Finset.range d, (if n + x < n then f (n + x) else 0) = 0 :=
    Finset.sum_eq_zero fun x _ => by rw [if_neg (by omega)]
  rw [h₁, h₂, Nat.add_zero]

theorem sum_map_flatMap {α β : Type} (c : β → Nat) (f : α → List β) (l : List α) :
    ((l.flatMap f).map c).sum = (l.map fun x => ((f x).map c).sum).sum := by
  induction l with
  | nil => rfl
  | cons a l ih => simp [List.flatMap_cons, ih]

/-- The sum of the contributions of all work-items of a dispatch of `M` groups. -/
theorem sum_globalIds (c : Nat → Nat) (G M : Nat) (hG : 0 < G) :
    ((globalIds G (M * G)).map c).sum
      = ∑ g in Finset.range M, ∑ l in Finset.range G, c (g * G + l) := by
  unfold globalIds
  rw [Nat.mul_div_cancel _ hG, sum_map_flatMap, list_sum_range]
  refine Finset.sum_congr rfl fun g _ => ?_
  rw [List.map_map, list_sum_range]
  rfl

theorem sum_element (input : List Nat) (n N : Nat) (hlen : input.length = n) (h : n ≤ N) :
    ∑ i in Finset.range N, element input n i = input.sum := by
  unfold element
  rw [sum_range_guard (fun i => input.getD i 0) n N h, ← list_sum_range, ← hlen,
    map_getD_range]

theorem atomicAdds_zero (contributions : List Nat) :
    atomicAdds 0 contributions = contributions.sum % 2 ^ 32 := by
  have h := foldl_wadd_zero (fun x : Nat => x) contributions
  simpa [atomicAdds, wadd] using h

theorem privateSum_eq (input : List Nat) (indices : List Nat) :
    privateSum input indices = (indices.map fun i => input.getD i 0).sum % 2 ^ 32 :=
  foldl_wadd_zero _ indices

theorem sum_filter_lt (input : List Nat) (n : Nat) (l : List Nat) :
    ((l.filter fun idx => idx < n).map fun i => input.getD i 0).sum
      = (l.map (element input n)).sum := by
  induction l with
  | nil => rfl
  | cons a l ih =>
    by_cases ha : a < n
    · rw [List.filter_cons, if_pos (by simpa using ha), List.map_cons, List.sum_cons, ih,
        List.map_cons, List.sum_cons, element, if_pos ha]
    · rw [List.filter_cons, if_neg (by simpa using ha), ih, List.map_cons, List.sum_cons,
        element, if_neg ha, Nat.zero_add]

theorem globalWorkSize_groups (n : Nat) (h : n + 31 < 2 ^ 32) :
    globalWorkSize n = (n + 31) / 32 * workGroupSize ∧ n ≤ (n + 31) / 32 * workGroupSize := by
  rw [globalWorkSize_of_no_wrap n h]
  unfold workGroupSize
  omega

/-! ## The kernels add up every element once -/

theorem sum_global_atomic_add_exact (order input : List Nat) (n G M : Nat) (hG : 0 < G)
    (hlen : input.length = n) (hM : n ≤ M * G) (hperm : order.Perm (globalIds G (M * G))) :
    sum_global_atomic_add order input 0 n = input.sum % 2 ^ 32 := by
  unfold sum_global_atomic_add
  rw [atomicAdds_zero, (hperm.map _).sum_eq, sum_globalIds _ G M hG,
    sum_range_mul (fun i => element input n i), sum_element input n _ hlen hM]

theorem cycle_private (input : List Nat) (n T gid : Nat) (hT : n ≤ T) :
    ((cycleElements T n gid).map fun i => input.getD i 0).sum = element input n gid := by
  unfold cycleElements
  rw [sum_filter_lt, List.map_map, list_sum_range]
  by_cases hn : n = 0
  · subst hn
    simp [element]
  · rw [Finset.sum_eq_single 0]
    · simp
    · intro k _ hk
      have h₁ : T ≤ k * T := Nat.le_mul_of_pos_left T (Nat.pos_of_ne_zero hk)
      simp only [Function.comp_apply, element]
      rw [if_neg (by omega)]
    · intro h
      exact absurd (Finset.mem_range.mpr (Nat.pos_of_ne_zero hn)) h

theorem sum_cycle_exact (order input : List Nat) (n G M : Nat) (hG : 0 < G)
    (hlen : input.length = n) (hM : n ≤ M * G) (hperm : order.Perm (globalIds G (M * G))) :
    sum_cycle order (M * G) input 0 n = input.sum % 2 ^ 32 := by
  unfold sum_cycle
  rw [atomicAdds_zero]
  have h₁ : (order.map fun gid => privateSum input (cycleElements (M * G) n gid))
      = order.map fun gid => element input n gid % 2 ^ 32 :=
    List.map_congr_left fun gid _ => by
      rw [privateSum_eq, cycle_private input n (M * G) gid hM]
  rw [h₁, sum_map_mod (fun gid => element input n gid) order, (hperm.map _).sum_eq,
    sum_globalIds _ G M hG, sum_range_mul (fun i => element input n i),
    sum_element input n _ hlen hM]

theorem coalesced_private (input : List Nat) (n G V g l : Nat) (hl : l < G) :
    ((coalescedElements G V n (g * G + l)).map fun i => input.getD i 0).sum
      = ∑ k in Finset.range V, element input n ((g * V + k) * G + l) := by
  unfold coalescedElements
  rw [sum_filter_lt, List.map_map, list_sum_range]
  have hdiv : (g * G + l) / G = g := by
    rw [Nat.add_comm, Nat.add_mul_div_right _ _ (by omega), Nat.div_eq_of_lt hl, Nat.zero_add]
  have hmod : (g * G + l) % G = l := by
    rw [Nat.add_comm, Nat.add_mul_mod_self_right, Nat.mod_eq_of_lt hl]
  refine Finset.sum_congr rfl fun k _ => ?_
  simp only [Function.comp_apply, hdiv, hmod]
  congr 1
  ring

theorem sum_cycle_coalesced_exact (order input : List Nat) (n G V M : Nat) (hG : 0 < G)
    (hV : 0 < V) (hlen : input.length = n) (hM : n ≤ M * G)
    (hperm : order.Perm (globalIds G (M * G))) :
    sum_cycle_coalesced order G V input 0 n = input.sum % 2 ^ 32 := by
  unfold sum_cycle_coalesced
  rw [atomicAdds_zero]
  have h₁ : (order.map fun gid => privateSum input (coalescedElements G V n gid))
      = order.map fun gid =>
          ((coalescedElements G V n gid).map fun i => input.getD i 0).sum % 2 ^ 32 :=
    List.map_congr_left fun gid _ => privateSum_eq input _
  rw [h₁, sum_map_mod
      (fun gid => ((coalescedElements G V n gid).map fun i => input.getD i 0).sum) order,
    (hperm.map _).sum_eq, sum_globalIds _ G M hG]
  have h₂ : ∑ g in Finset.range M, ∑ l in Finset.range G,
        ((coalescedElements G V n (g * G + l)).map fun i => input.getD i 0).sum
      = ∑ g in Finset.range M, ∑ k in Finset.range V,
          ∑ l in Finset.range G, element input n ((g * V + k) * G + l) := by
    refine Finset.sum_congr rfl fun g _ => ?_
    rw [Finset.sum_comm]
    refine Finset.sum_congr rfl fun l hl => ?_
    exact coalesced_private input n G V g l (Finset.mem_range.mp hl)
  rw [h₂, sum_range_mul (fun q => ∑ l in Finset.range G, element input n (q * G + l)) M V,
    sum_range_mul (fun i => element input n i) (M * V) G]
  have h₃ : M * G ≤ M * V * G :=
    calc M * G = M * 1 * G := by rw [Nat.mul_one]
      _ ≤ M * V * G := Nat.mul_le_mul_right G (Nat.mul_le_mul_left M hV)
  rw [sum_element input n _ hlen (le_trans hM h₃)]

theorem foldl_wadd_list (l : List Nat) : l.foldl wadd 0 = l.sum % 2 ^ 32 :=
  atomicAdds_zero l

theorem localBuffer_sum (input : List Nat) (n G g : Nat) :
    (localBuffer G input n g).sum = ∑ l in Finset.range G, element input n (g * G + l) := by
  unfold localBuffer
  rw [list_sum_range]

theorem sum_local_mem_main_thread_exact (groupOrder input : List Nat) (n G M : Nat)
    (hlen : input.length = n) (hM : n ≤ M * G) (hperm : groupOrder.Perm (List.range M)) :
    sum_local_mem_main_thread groupOrder G input 0 n = input.sum % 2 ^ 32 := by
  unfold sum_local_mem_main_thread
  rw [atomicAdds_zero]
  have h₁ : (groupOrder.map fun g => (localBuffer G input n g).foldl wadd 0)
      = groupOrder.map fun g => (localBuffer G input n g).sum % 2 ^ 32 :=
    List.map_congr_left fun g _ => foldl_wadd_list _
  rw [h₁, sum_map_mod (fun g => (localBuffer G input n g).sum) groupOrder,
    (hperm.map _).sum_eq, list_sum_range]
  have h₂ : ∑ g in Finset.range M, (localBuffer G input n g).sum
      = ∑ g in Finset.range M, ∑ l in Finset.range G, element input n (g * G + l) :=
    Finset.sum_congr rfl fun g _ => localBuffer_sum input n G g
  rw [h₂, sum_range_mul (fun i => element input n i), sum_element input n _ hlen hM]

/-! ## The pairwise tree -/

theorem length_treeRound (a : Nat) (buf : List Nat) : (treeRound a buf).length = buf.length := by
  simp [treeRound]

theorem getD_treeRound (a : Nat) (buf : List Nat) (l : Nat) (hl : l < buf.length) :
    (treeRound a buf).getD l 0
      = if l < a then wadd (buf.getD l 0) (buf.getD (l + a) 0) else buf.getD l 0 := by
  unfold treeRound
  rw [List.getD_eq_getElem?_getD, List.getElem?_map, List.getElem?_range hl]
  rfl

/-- One round with `a` active threads folds the slots `a .. 2a - 1` onto the slots
`0 .. a - 1`. -/
theorem treeRound_sum (a : Nat) (buf : List Nat) (h : a + a ≤ buf.length) :
    (∑ l in Finset.range a, (treeRound a buf).getD l 0) % 2 ^ 32
      = (∑ l in Finset.range (a + a), buf.getD l 0) % 2 ^ 32 := by
  have h₁ : ∑ l in Finset.range a, (treeRound a buf).getD l 0
      = ∑ l in Finset.range a, (buf.getD l 0 + buf.getD (a + l) 0) % 2 ^ 32 :=
    Finset.sum_congr rfl fun l hl => by
      have hla := Finset.mem_range.mp hl
      rw [getD_treeRound a buf l (by omega), if_pos hla, wadd, Nat.add_comm l a]
  rw [h₁, ← Finset.sum_nat_mod, Finset.sum_add_distrib, Finset.sum_range_add]

theorem treeRounds_head (r : Nat) (buf : List Nat) (h : 2 ^ r ≤ buf.length) :
    (treeRounds r (2 ^ r) buf).getD 0 0 % 2 ^ 32
      = (∑ l in Finset.range (2 ^ r), buf.getD l 0) % 2 ^ 32 := by
  induction r generalizing buf with
  | zero => simp [treeRounds]
  | succ r ih =>
    have hhalf : 2 ^ (r + 1) / 2 = 2 ^ r := by
      rw [Nat.pow_succ, Nat.mul_div_cancel _ (by decide)]
    have hdouble : 2 ^ (r + 1) = 2 ^ r + 2 ^ r := by rw [Nat.pow_succ]; omega
    rw [treeRounds, hhalf, ih (treeRound (2 ^ r) buf) (by rw [length_treeRound]; omega),
      treeRound_sum (2 ^ r) buf (by omega), ← hdouble]

theorem treeRounds_head_lt (r : Nat) (buf : List Nat) (h : 2 ^ (r + 1) ≤ buf.length) :
    (treeRounds (r + 1) (2 ^ (r + 1)) buf).getD 0 0 < 2 ^ 32 := by
  induction r generalizing buf with
  | zero =>
    have hlen : 0 < buf.length := by
      have : 2 ^ (0 + 1) = 2 := by decide
      omega
    simp only [treeRounds]
    rw [getD_treeRound _ buf 0 hlen, if_pos (by decide)]
    exact Nat.mod_lt _ (by norm_num)
  | succ r ih =>
    have hhalf : 2 ^ (r + 1 + 1) / 2 = 2 ^ (r + 1) := by
      rw [Nat.pow_succ, Nat.mul_div_cancel _ (by decide)]
    have hdouble : 2 ^ (r + 1 + 1) = 2 ^ (r + 1) + 2 ^ (r + 1) := by
      rw [Nat.pow_succ]; omega
    rw [treeRounds, hhalf]
    exact ih (treeRound (2 ^ (r + 1)) buf) (by rw [length_treeRound]; omega)

theorem sum_getD_eq_sum (buf : List Nat) :
    ∑ l in Finset.range buf.length, buf.getD l 0 = buf.sum := by
  rw [← list_sum_range, map_getD_range]

/-- The tree on a buffer of 32 slots: after `log2(32) = 5` rounds slot `0` holds the sum of the
slots, modulo `2 ^ 32`. -/
theorem tree_total (buf : List Nat) (h : buf.length = 32) :
    log2 32 = 5
      ∧ (treeRounds (log2 32) 32 buf).getD 0 0 = buf.sum % 2 ^ 32 := by
  have hlog : log2 32 = 5 := by decide
  refine ⟨hlog, ?_⟩
  have h₁ := treeRounds_head 5 buf (by rw [h]; decide)
  have h₂ := treeRounds_head_lt 4 buf (by rw [h]; decide)
  have h₃ : (2 : Nat) ^ 5 = 32 := by decide
  have h₄ : (2 : Nat) ^ (4 + 1) = 32 := by decide
  have h₅ : (4 : Nat) + 1 = 5 := rfl
  rw [h₄, h₅] at h₂
  rw [h₃, ← h, sum_getD_eq_sum, h, Nat.mod_eq_of_lt h₂] at h₁
  rw [hlog]
  exact h₁

theorem sum_tree_exact (groupOrder input : List Nat) (n M : Nat)
    (hlen : input.length = n) (hM : n ≤ M * 32) (hperm : groupOrder.Perm (List.range M)) :
    sum_tree groupOrder 32 input 0 n = input.sum % 2 ^ 32 := by
  unfold sum_tree
  rw [atomicAdds_zero]
  have h₁ : (groupOrder.map fun g =>
        (treeRounds (log2 32) 32 (localBuffer 32 input n g)).getD 0 0)
      = groupOrder.map fun g => (localBuffer 32 input n g).sum % 2 ^ 32 :=
    List.map_congr_left fun g _ => (tree_total _ (by simp [localBuffer])).2
  rw [h₁, sum_map_mod (fun g => (localBuffer 32 input n g).sum) groupOrder,
    (hperm.map _).sum_eq, list_sum_range]
  have h₂ : ∑ g in Finset.range M, (localBuffer 32 input n g).sum
      = ∑ g in Finset.range M, ∑ l in Finset.range 32, element input n (g * 32 + l) :=
    Finset.sum_congr rfl fun g _ => localBuffer_sum input n 32 g
  rw [h₂, sum_range_mul (fun i => element input n i), sum_element input n _ hlen hM]

/-! ## C10: the device strategies -/

/-- C10 as stated fails: the workload of `n = 4294967295` ones satisfies the generator's bound
`UINT_MAX / n = 1` and has the reference sum `4294967295`, but `n + 31` wraps, the global span
is `0`, the dispatch has no work-item and no group, and every kernel leaves the accumulator
at `0`. -/
theorem device_sum_without_work_items :
    (∀ x ∈ List.replicate 4294967295 1, x ≤ UINT_MAX / 4294967295)
      ∧ generate (fun _ _ _ => 1) 4294967295 = (List.replicate 4294967295 1, 4294967295)
      ∧ globalIds workGroupSize (globalWorkSize 4294967295) = []
      ∧ List.range (globalWorkSize 4294967295 / workGroupSize) = []
      ∧ sum_global_atomic_add (globalIds workGroupSize (globalWorkSize 4294967295))
          (List.replicate 4294967295 1) 0 4294967295 = 0
      ∧ sum_cycle (globalIds workGroupSize (globalWorkSize 4294967295))
          (globalWorkSize 4294967295) (List.replicate 4294967295 1) 0 4294967295 = 0
      ∧ sum_cycle_coalesced (globalIds workGroupSize (globalWorkSize 4294967295))
          workGroupSize 1 (List.replicate 4294967295 1) 0 4294967295 = 0
      ∧ sum_local_mem_main_thread (List.range (globalWorkSize 4294967295 / workGroupSize))
          workGroupSize (List.replicate 4294967295 1) 0 4294967295 = 0
      ∧ sum_tree (List.range (globalWorkSize 4294967295 / workGroupSize))
          workGroupSize (List.replicate 4294967295 1) 0 4294967295 = 0 := by
  have hids : globalIds workGroupSize (globalWorkSize 4294967295) = [] := by decide
  have hgroups : List.range (globalWorkSize 4294967295 / workGroupSize) = [] := by decide
  have hbound : UINT_MAX / 4294967295 = 1 := by decide
  have hb : ∀ x ∈ List.replicate 4294967295 1, x ≤ UINT_MAX / 4294967295 := by
    intro x hx
    rw [List.eq_of_mem_replicate hx, hbound]
  have hgen := generate_workload (fun _ _ _ => 1) 4294967295
    (List.replicate 4294967295 1) (List.length_replicate _ _)
    (bounded_lt 4294967295 _ hb)
    (fun i hi => by
      rw [List.getD_eq_getElem?_getD, List.getElem?_replicate, if_pos hi]
      rfl)
  have hsum : (List.replicate 4294967295 1).sum = 4294967295 := by
    rw [List.sum_replicate, smul_eq_mul, Nat.mul_one]
  have hmod : ∀ s : Nat, s = 4294967295 → s % 2 ^ 32 = 4294967295 := by
    intro s hs
    subst hs
    decide
  rw [hmod _ hsum] at hgen
  refine ⟨hb, hgen, hids, hgroups, ?_, ?_, ?_, ?_, ?_⟩
  · rw [hids]; rfl
  · rw [hids]; rfl
  · rw [hids]; rfl
  · rw [hgroups]; rfl
  · rw [hgroups]; rfl

/-- C10, amended. For every element count `n > 0` with `n + 31` representable in 32 bits, every
workload `w` of `n` values satisfying the generator's bound, and each of the five kernels as
the specification describes them, dispatched with group size 32 over the global span
`globalWorkSize n` on an accumulator holding `0`: whatever the order in which the atomic adds
of the work-items (or of the groups) take effect, the accumulator ends with `reference_sum`,
the exact sum of the workload. For `sum_tree`, the pairwise tree on a 32-slot buffer takes
`log2(32) = 5` rounds and leaves the sum of the slots (modulo `2 ^ 32`) in slot `0`. The number
of steps per thread of `sum_cycle_coalesced`, which the specification leaves open, is any
`steps > 0`. -/
theorem device_strategies_exact (next : Nat → Nat → Nat → Int) (n steps : Nat) (w : List Nat)
    (_hn : 0 < n) (hwrap : n + 31 < 2 ^ 32) (hsteps : 0 < steps) (hlen : w.length = n)
    (hb : ∀ x ∈ w, x ≤ UINT_MAX / n)
    (hnext : ∀ i, i < n → next i 0 (UINT_MAX / n) = ((w.getD i 0 : Nat) : Int)) :
    (generate next n).1 = w ∧ (generate next n).2 = w.sum
      ∧ (∀ order : List Nat, order.Perm (globalIds workGroupSize (globalWorkSize n)) →
          sum_global_atomic_add order w 0 n = (generate next n).2)
      ∧ (∀ order : List Nat, order.Perm (globalIds workGroupSize (globalWorkSize n)) →
          sum_cycle order (globalWorkSize n) w 0 n = (generate next n).2)
      ∧ (∀ order : List Nat, order.Perm (globalIds workGroupSize (globalWorkSize n)) →
          sum_cycle_coalesced order workGroupSize steps w 0 n = (generate next n).2)
      ∧ (∀ groupOrder : List Nat,
          groupOrder.Perm (List.range (globalWorkSize n / workGroupSize)) →
          sum_local_mem_main_thread groupOrder workGroupSize w 0 n = (generate next n).2)
      ∧ (∀ groupOrder : List Nat,
          groupOrder.Perm (List.range (globalWorkSize n / workGroupSize)) →
          sum_tree groupOrder workGroupSize w 0 n = (generate next n).2)
      ∧ (∀ buf : List Nat, buf.length = workGroupSize →
          log2 workGroupSize = 5
            ∧ (treeRounds (log2 workGroupSize) workGroupSize buf).getD 0 0
                = buf.sum % 2 ^ 32) := by
  have hsum : w.sum ≤ UINT_MAX := bounded_sum_le n w hlen hb
  have hmod : w.sum % 2 ^ 32 = w.sum := Nat.mod_eq_of_lt (by unfold UINT_MAX at hsum; omega)
  have hgen := generate_workload next n w hlen (bounded_lt n w hb) hnext
  rw [hmod] at hgen
  obtain ⟨hgws, hcover⟩ := globalWorkSize_groups n hwrap
  have hG : 0 < workGroupSize := by decide
  have hdiv : globalWorkSize n / workGroupSize = (n + 31) / 32 := by
    rw [hgws, Nat.mul_div_cancel _ hG]
  rw [hgen, hgws, Nat.mul_div_cancel _ hG]
  refine ⟨rfl, rfl, ?_, ?_, ?_, ?_, ?_, ?_⟩
  · intro order hperm
    rw [sum_global_atomic_add_exact order w n workGroupSize _ hG hlen hcover hperm, hmod]
  · intro order hperm
    rw [sum_cycle_exact order w n workGroupSize _ hG hlen hcover hperm, hmod]
  · intro order hperm
    rw [sum_cycle_coalesced_exact order w n workGroupSize steps _ hG hsteps hlen hcover hperm,
      hmod]
  · intro groupOrder hperm
    rw [sum_local_mem_main_thread_exact groupOrder w n workGroupSize _ hlen hcover hperm, hmod]
  · intro groupOrder hperm
    have h := sum_tree_exact groupOrder w n _ hlen hcover hperm
    rw [hmod] at h
    exact h
  · intro buf hbuf
    exact tree_total buf hbuf

/-- Witness of C10 (amended): `n = 1` with the single element `5` gives `5` for every
strategy, the atomic adds taking effect in the order of the global ids. -/
theorem device_strategies_exact_witness :
    sum_global_atomic_add (globalIds workGroupSize (globalWorkSize 1)) [5] 0 1 = 5
      ∧ sum_cycle (globalIds workGroupSize (globalWorkSize 1)) (globalWorkSize 1) [5] 0 1 = 5
      ∧ sum_cycle_coalesced (globalIds workGroupSize (globalWorkSize 1)) workGroupSize 2
          [5] 0 1 = 5
      ∧ sum_local_mem_main_thread (List.range (globalWorkSize 1 / workGroupSize))
          workGroupSize [5] 0 1 = 5
      ∧ sum_tree (List.range (globalWorkSize 1 / workGroupSize)) workGroupSize [5] 0 1 = 5 := by
  have h := device_strategies_exact (fun _ _ _ => 5) 1 2 [5] (by decide) (by decide)
    (by decide) rfl (by decide) (fun i hi => by
      have : i = 0 := by omega
      subst this
      rfl)
  have href : (generate (fun _ _ _ => 5) 1).2 = 5 := h.2.1
  rw [href] at h
  exact ⟨h.2.2.1 _ (List.Perm.refl _), h.2.2.2.1 _ (List.Perm.refl _),
    h.2.2.2.2.1 _ (List.Perm.refl _), h.2.2.2.2.2.1 _ (List.Perm.refl _),
    h.2.2.2.2.2.2.1 _ (List.Perm.refl _)⟩

end MainSum
